import Mathlib

/-!
Verification of the diagnostic-message engine of the sublime-rust plugin
(`rust/messages.py`).  The definitions below are a shallow embedding of the
Python source: each Lean function mirrors one Python function (same name in
snake_case where Lean allows), with the Sublime-editor side effects (drawing
regions, phantoms, opening views) omitted, mutation replaced by explicit
state passing, Python `None` replaced by `Option`, and Python dict/list
state replaced by association lists that keep insertion order (Python
`OrderedDict` semantics).  File-system resolution (`os.path.realpath`) is
modelled as path joining only, since symlink resolution is not expressible
in a pure embedding; `uuid4` identifiers are omitted because no modelled
operation reads them.
-/

namespace RustMessages

/-- 0-based region `((line_start, col_start), (line_end, col_end))`,
mirroring `Message.span` in `messages.py`. -/
abbrev Region := (Nat × Nat) × (Nat × Nat)

/-- The 1-based location block of a raw rustc span dictionary
(`line_start`, `column_start`, `line_end`, `column_end`).  The four fields
are grouped because rustc emits either all of them or none. -/
structure SpanLines where
  line_start : Nat
  column_start : Nat
  line_end : Nat
  column_end : Nat
  deriving DecidableEq, Repr

/-- The non-recursive fields of a raw rustc span dictionary. -/
structure SpanCore where
  file_name : String
  lineInfo : Option SpanLines
  is_primary : Bool
  label : Option String
  suggested_replacement : Option String
  texts : List String
  deriving DecidableEq, Repr

/-- A raw rustc span: core fields plus the optional `expansion` entry
`(span, macro_decl_name, def_site_span)`. -/
inductive JSpan where
  | mk (core : SpanCore) (expn : Option (JSpan × String × Option JSpan)) : JSpan
  deriving Repr

/-- Core fields of a span. -/
def JSpan.core : JSpan → SpanCore
  | .mk c _ => c

/-- Expansion entry of a span. -/
def JSpan.expn : JSpan → Option (JSpan × String × Option JSpan)
  | .mk _ e => e

/-- The `code` dictionary of a rustc diagnostic: `code` string plus an
optional `explanation`. -/
structure DCode where
  code : String
  explanation : Option String
  deriving DecidableEq, Repr

/-- A raw rustc diagnostic record (`info` in `_collect_rust_messages`):
message text, level, optional code, spans, and child records. -/
inductive Diag where
  | mk (message : String) (level : String) (code : Option DCode)
       (spans : List JSpan) (children : List Diag) : Diag
  deriving Repr

/-- Message text of a record. -/
def Diag.message : Diag → String
  | .mk m _ _ _ _ => m

/-- Level of a record. -/
def Diag.level : Diag → String
  | .mk _ l _ _ _ => l

/-- Code entry of a record. -/
def Diag.code : Diag → Option DCode
  | .mk _ _ c _ _ => c

/-- Spans of a record. -/
def Diag.spans : Diag → List JSpan
  | .mk _ _ _ s _ => s

/-- Child records of a record. -/
def Diag.children : Diag → List Diag
  | .mk _ _ _ _ c => c

/-- Target of a rendered `file:///` link: path plus optional 1-based
`(line, column)` (`make_file_path` renders no position when the message has
no span). -/
structure FileRef where
  path : String
  pos : Option (Nat × Nat)
  deriving DecidableEq, Repr

/-- Label shown on a cross link: up arrow, down arrow, or base file name
(`_create_cross_links`). -/
inductive LinkLabel where
  | up : LinkLabel
  | down : LinkLabel
  | base (name : String) : LinkLabel
  deriving DecidableEq, Repr

/-- Abstract form of the `minihtml_text` fragments the source builds with
string templates: a suggested-replacement action or a cross link.  The
literal HTML text carries no information beyond these parameters, so the
embedding keeps the parameters. -/
inductive MiniHtml where
  | repl (replacement : String) : MiniHtml
  | note (url : FileRef) (fname : LinkLabel) (lineno : Option Nat) : MiniHtml
  deriving DecidableEq, Repr

/-- The `Message` object of `messages.py` (class defaults preserved;
`region_key` is the numeric part of the source's string key; the
`children`/`parent` links live in `PrimaryTree` instead of the record). -/
structure Message where
  path : Option String := none
  span : Option Region := none
  text : Option String := none
  level : Option String := none
  code : Option String := none
  region_key : Option Nat := none
  back_link : Option FileRef := none
  primary : Bool := true
  hidden : Bool := false
  minihtml_text : Option MiniHtml := none
  deriving DecidableEq, Repr

/-- A primary message together with its flat list of children (the source
documents that children never have children). -/
structure PrimaryTree where
  primary : Message
  children : List Message
  deriving DecidableEq, Repr

/-- `Message.lineno`: first line of the span, or the source's 999999999
sentinel when there is no span. -/
def Message.lineno (m : Message) : Nat :=
  match m.span with
  | some r => r.1.1
  | none => 999999999

/-- `Message.is_similar`: equality of `(path, span, level, text)`. -/
def Message.is_similar (self other : Message) : Bool :=
  other.path = self.path && other.span = self.span &&
  other.level = self.level && other.text = self.text

/-- Python `s.startswith(pat)`, computed on the character lists. -/
def strBegins (s pat : String) : Bool :=
  pat.data.isPrefixOf s.data

/-- Substring search worker for `strHasSub`. -/
def hasSubAux (pat : List Char) : List Char → Bool
  | [] => pat.isEmpty
  | c :: cs => pat.isPrefixOf (c :: cs) || hasSubAux pat cs

/-- Python `pat in s`, computed on the character lists. -/
def strHasSub (s pat : String) : Bool :=
  hasSubAux pat.data s.data

/-- Lexicographic string comparison worker (Python `<` on strings compares
code points lexicographically). -/
def strLtAux : List Char → List Char → Bool
  | [], [] => false
  | [], _ :: _ => true
  | _ :: _, [] => false
  | a :: as, b :: bs => a < b || (a = b && strLtAux as bs)

/-- Python `a < b` on strings. -/
def strLt (a b : String) : Bool :=
  strLtAux a.data b.data

/-- Python `s.replace('\\', '/')` (single-character pattern, so a map). -/
def replaceBack (s : String) : String :=
  ⟨s.data.map (fun c => if c = '\\' then '/' else c)⟩

/-- Worker for `baseNameStr`: keep the characters after the last slash. -/
def baseAux : List Char → List Char → List Char
  | acc, [] => acc.reverse
  | _, '/' :: rest => baseAux [] rest
  | acc, c :: rest => baseAux (c :: acc) rest

/-- `os.path.basename` for slash-separated paths. -/
def baseNameStr (s : String) : String :=
  ⟨baseAux [] s.data⟩

/-- Python `'macros>' in s`. -/
def containsMacros (s : String) : Bool :=
  strHasSub s "macros>"

/-- `os.path.join` for the cases used here: an absolute second component
replaces the first.  Symlink resolution by `os.path.realpath` is not
modelled. -/
def joinPath (base name : String) : String :=
  if strBegins name "/" then name else base ++ "/" ++ name

/-- `find_span_r`: walk the `expansion` chain to the root span, returning
the root together with the last expansion entry traversed. -/
def findSpanR : JSpan → Option (JSpan × String × Option JSpan) →
    JSpan × Option (JSpan × String × Option JSpan)
  | .mk _ (some (s, dn, ds)), _ => findSpanR s (some (s, dn, ds))
  | s, e => (s, e)

/-- The `updated` span built at `messages.py:976-980`: a copy of `target`
with `is_primary`, `label` and `suggested_replacement` taken from the
original span. -/
def withFlags (target original : JSpan) : JSpan :=
  .mk { target.core with
          is_primary := original.core.is_primary,
          label := original.core.label,
          suggested_replacement := original.core.suggested_replacement }
      target.expn

/-- Resolution of a macro span as performed in the `'macros>'` branch of
the span loop: root location from `find_span_r`, flags from the original
span. -/
def resolvedSpan (s : JSpan) : JSpan :=
  withFlags (findSpanR s none).1 s

/-- `make_span_region`: convert the 1-based line block to a 0-based region;
Python truthiness makes a missing or zero `line_start` yield no region. -/
def make_span_region (s : JSpan) : Option Region :=
  match s.core.lineInfo with
  | some li =>
      if li.line_start = 0 then none
      else some ((li.line_start - 1, li.column_start - 1),
                 (li.line_end - 1, li.column_end - 1))
  | none => none

/-- Configuration passed into `add_rust_messages`: base path for relative
spans, optional target path, the `rust_syntax_hide_warnings` setting and
whether a `msg_cb` callback was supplied. -/
structure Cfg where
  base_path : String
  target_path : Option String
  hide_warnings : Bool := false
  has_cb : Bool := true
  deriving Repr

/-- `make_span_path`: resolve a span file name against the base path. -/
def make_span_path (cfg : Cfg) (fileName : String) : String :=
  joinPath cfg.base_path fileName

/-- State threaded through `_collect_rust_messages`: the shared primary
`Message` being filled in, the accumulated children, and the messages
handed to `msg_cb` for unanchored records. -/
structure CState where
  msg : Message
  children : List Message
  cb : List Message
  deriving Repr

/-- Python truthiness of `info['code'] and info['code']['explanation']`. -/
def codeTruthy : Option DCode → Bool
  | some c => match c.explanation with
    | some e => e != ""
    | none => false
  | none => false

/-- `set_primary_message`: record the span in `parent_info`, optionally set
the code, and fill the primary message fields from the span and record. -/
def set_primary_message (cfg : Cfg) (dlevel : String) (dcode : Option DCode)
    (s : JSpan) (text : String) (st : CState) :
    CState × Option JSpan :=
  let msg := st.msg
  let msg := if codeTruthy dcode then
      { msg with code := (dcode.map DCode.code) }
    else msg
  let msg := { msg with
      path := some (make_span_path cfg s.core.file_name),
      span := make_span_region s,
      text := some text,
      level := some dlevel }
  ({ st with msg := msg }, some s)

/-- `add_additional`: append a non-primary child anchored at the span. -/
def add_additional (cfg : Cfg) (s : JSpan) (text : Option String)
    (level : String) (st : CState) : CState × Message :=
  let child : Message :=
    { path := some (make_span_path cfg s.core.file_name),
      span := make_span_region s,
      text := text,
      level := some level,
      primary := false }
  ({ st with children := st.children ++ [child] }, child)

/-- Python truthiness of `span['suggested_replacement']` (a present but
empty string is falsy). -/
def suggTruthy : Option String → Bool
  | some s => s != ""
  | none => false

/-- The `'macros>' in span['file_name']` block of the span loop
(lines 967-1003): resolve the span through its expansion chain and emit
the external-crate or outside-crate notes.  The `if not target_span:
continue` guard of the source is dead code (a span dictionary is always
truthy) and is not modelled. -/
def macroStage (cfg : Cfg) (dlevel : String) (st : CState) (span0 : JSpan) :
    CState × JSpan :=
  if containsMacros span0.core.file_name then
    let te := findSpanR span0 none
    let upd := withFlags te.1 span0
    if containsMacros upd.core.file_name then
      -- macro from an external crate: re-anchor at the target path
      let macroName := upd.core.file_name
      let upd :=
        match cfg.target_path with
        | some tp => JSpan.mk { upd.core with file_name := tp, lineInfo := none } upd.expn
        | none => upd
      let st := (add_additional cfg upd
        (some ("Errors occurred in macro " ++ macroName ++ " from external crate"))
        dlevel st).1
      let mtext := String.join upd.core.texts
      let st := (add_additional cfg upd
        (some ("Macro text: " ++ mtext)) dlevel st).1
      (st, upd)
    else
      let needNote :=
        match te.2 with
        | none => true
        | some (_, _, none) => true
        | some (_, _, some ds) => containsMacros ds.core.file_name
      if needNote then
        ((add_additional cfg upd
          (some "this error originates in a macro outside of the current crate")
          dlevel st).1, upd)
      else (st, upd)
  else (st, span0)

/-- The macro-invocation-site block (lines 1005-1011). -/
def invokeStage (cfg : Cfg) (st : CState) (span : JSpan) : CState :=
  match span.expn with
  | some (_, dn, _) =>
      if !containsMacros span.core.file_name && !strBegins dn "#[" then
        let inv := (findSpanR span none).1
        (add_additional cfg inv (some "in this macro invocation") "help" st).1
      else st
  | none => st

/-- The `is_primary` block (lines 1013-1022). -/
def primaryStage (cfg : Cfg) (dmsg dlevel : String) (dcode : Option DCode)
    (st : CState) (pinfo : Option JSpan) (span : JSpan) :
    CState × Option JSpan :=
  if span.core.is_primary then
    match pinfo with
    | some _ => ((add_additional cfg span (some dmsg) dlevel st).1, pinfo)
    | none =>
        if st.msg.path = none then
          set_primary_message cfg dlevel dcode span dmsg st
        else (st, pinfo)
  else (st, pinfo)

/-- The label block (lines 1024-1035). -/
def labelStage (cfg : Cfg) (dlevel : String) (st : CState) (span : JSpan) :
    CState :=
  match span.core.label with
  | some lb => (add_additional cfg span (some lb) dlevel st).1
  | none => st

/-- The suggested-replacement block (lines 1036-1050): the source sets
`minihtml_text` on the child object it just appended, so the list is
rebuilt with the updated last element. -/
def suggStage (cfg : Cfg) (st : CState) (span : JSpan) : CState :=
  if suggTruthy span.core.suggested_replacement then
    let pair := add_additional cfg span none "help" st
    let st := pair.1
    let child := pair.2
    let replText := span.core.suggested_replacement.getD ""
    let child := { child with minihtml_text := some (MiniHtml.repl replText) }
    { st with children := st.children.dropLast ++ [child] }
  else st

/-- Body of the `for span in info['spans']` loop of
`_collect_rust_messages` (lines 966-1050), for one span.  Returns the
updated state and the possibly-updated `parent_info` span. -/
def processSpan (cfg : Cfg) (dmsg dlevel : String) (dcode : Option DCode)
    (acc : CState × Option JSpan) (span0 : JSpan) : CState × Option JSpan :=
  let ms := macroStage cfg dlevel acc.1 span0
  let st := invokeStage cfg ms.1 ms.2
  let stp := primaryStage cfg dmsg dlevel dcode st acc.2 ms.2
  let st := labelStage cfg dlevel stp.1 ms.2
  (suggStage cfg st ms.2, stp.2)

/-- The zero-span branch of `_collect_rust_messages` (lines 934-958). -/
def zeroSpans (cfg : Cfg) (dmsg dlevel : String) (dcode : Option DCode)
    (st : CState) (pinfo : Option JSpan) : CState × Option JSpan :=
  match pinfo with
  | some ps => ((add_additional cfg ps (some dmsg) dlevel st).1, pinfo)
  | none =>
      if strBegins dmsg "aborting due to" || strBegins dmsg "cannot continue" then
        (st, pinfo)
      else
        match cfg.target_path with
        | some tp =>
            let fake : JSpan := .mk
              { file_name := tp, lineInfo := none, is_primary := false,
                label := none, suggested_replacement := none, texts := [] } none
            set_primary_message cfg dlevel dcode fake dmsg st
        | none =>
            if cfg.has_cb then
              let tmp : Message := { level := some dlevel, text := some dmsg }
              ({ st with cb := st.cb ++ [tmp] }, pinfo)
            else (st, pinfo)

mutual

/-- `_collect_rust_messages`: one record.  `pinfo` is the `parent_info`
dictionary (its only key, `span`); recursion into children passes the
value current after this record's spans were processed, matching
`parent_info.copy()` in the source. -/
def collect (cfg : Cfg) (d : Diag) (pinfo : Option JSpan) (st : CState) : CState :=
  match d with
  | .mk dmsg dlevel dcode dspans dchildren =>
    if dlevel != "error" && cfg.hide_warnings && pinfo.isNone then st
    else
      let acc :=
        if dspans.isEmpty then
          zeroSpans cfg dmsg dlevel dcode st pinfo
        else (st, pinfo)
      let acc := dspans.foldl (processSpan cfg dmsg dlevel dcode) acc
      collectList cfg dchildren acc.2 acc.1

/-- Recursion of `_collect_rust_messages` into `info['children']`. -/
def collectList (cfg : Cfg) (ds : List Diag) (pinfo : Option JSpan) (st : CState) : CState :=
  match ds with
  | [] => st
  | d :: rest => collectList cfg rest pinfo (collect cfg d pinfo st)

end

/-- `make_file_path`: link target for a message; 1-based position when a
span is present, none (the source's 999999999 line form) otherwise. -/
def make_file_path (m : Message) : FileRef :=
  match m.span with
  | some r => { path := replaceBack (m.path.getD ""),
                pos := some (r.1.1 + 1, r.1.2 + 1) }
  | none => { path := m.path.getD "", pos := none }

/-- Distance test of `_create_cross_links`: different file, or more than 5
lines away in the same file. -/
def isDistant (p c : Message) : Bool :=
  c.path != p.path || ((c.lineno : Int) - (p.lineno : Int)).natAbs > 5

/-- De-duplication key `(child.path, child.lineno)` of
`_create_cross_links`. -/
def childKey (c : Message) : Option String × Nat :=
  (c.path, c.lineno)

/-- The synthesized forward-link message (lines 1115-1124): primary's path,
span and level, no text, link fragment pointing at the child. -/
def mkLink (p c : Message) : Message :=
  let linePart : Option Nat :=
    match c.span with
    | some _ => some (c.lineno + 1)
    | none => none
  let fname : LinkLabel :=
    if c.path = p.path then
      if c.lineno < p.lineno then .up else .down
    else
      .base (baseNameStr (c.path.getD ""))
  { path := p.path, span := p.span, level := p.level, primary := false,
    minihtml_text := some (MiniHtml.note (make_file_path c) fname linePart) }

/-- Loop of `_create_cross_links` over the children: returns the updated
children (back links set on the first distant child of each key) and the
link messages to append. -/
def clGo (p : Message) (seen : List (Option String × Nat)) :
    List Message → List Message × List Message
  | [] => ([], [])
  | c :: cs =>
    if isDistant p c then
      if seen.contains (childKey c) then
        let r := clGo p seen cs
        (c :: r.1, r.2)
      else
        let r := clGo p (childKey c :: seen) cs
        ({ c with back_link := some (make_file_path p) } :: r.1, mkLink p c :: r.2)
    else
      let r := clGo p seen cs
      (c :: r.1, r.2)

/-- `_create_cross_links`: set back links on distant children and append
one forward-link child per distinct distant `(path, line)`. -/
def create_cross_links (t : PrimaryTree) : PrimaryTree :=
  let r := clGo t.primary [] t.children
  { primary := t.primary, children := r.1 ++ r.2 }

/-- The link messages `_create_cross_links` appends for a tree. -/
def linksOf (t : PrimaryTree) : List Message :=
  (clGo t.primary [] t.children).2

/-- Session state for one window: `paths` is the `OrderedDict` mapping
path to message list, `msg_index` the navigation cursor with `none` for
the `(-1, -1)` sentinel. -/
structure WinInfo where
  paths : List (Option String × List Message) := []
  msg_index : Option (Nat × Nat) := none
  deriving DecidableEq, Repr

/-- Ordered-dict lookup: the list stored under the first matching key, or
the empty list. -/
def lookupPath : List (Option String × List Message) → Option String → List Message
  | [], _ => []
  | e :: es, p => if e.1 = p then e.2 else lookupPath es p

/-- Ordered-dict `setdefault(p, []).append(m)`: extend the entry of the
first matching key, or add a new key at the end. -/
def putAppend : List (Option String × List Message) → Option String → Message →
    List (Option String × List Message)
  | [], p, m => [(p, [m])]
  | e :: es, p, m =>
    if e.1 = p then (e.1, e.2 ++ [m]) :: es else e :: putAppend es p m

/-- Message list stored for a path (`paths.setdefault` read part). -/
def storedAt (w : WinInfo) (p : Option String) : List Message :=
  lookupPath w.paths p

/-- Append a message under a path, creating the path entry at the end of
the ordered dict if absent (`setdefault` plus `append`). -/
def storeAppend (w : WinInfo) (p : Option String) (m : Message) : WinInfo :=
  { w with paths := putAppend w.paths p m }

/-- `add_message`: skip synthetic macro paths, skip when a similar message
is already stored for the path, otherwise append with a fresh region key.
The returned flag tells whether the message was stored (and hence whether
`msg_cb` was invoked for it). -/
def add_message (w : WinInfo) (m : Message) : WinInfo × Bool :=
  if containsMacros (m.path.getD "") then (w, false)
  else
    let msgs := storedAt w m.path
    if msgs.any (fun o => m.is_similar o) then (w, false)
    else
      (storeAppend w m.path { m with region_key := some (msgs.length + 1) }, true)

/-- Fold `add_message` over a list, collecting the stored flags. -/
def add_messages (w : WinInfo) : List Message → WinInfo × List Bool
  | [] => (w, [])
  | m :: ms =>
    let r := add_message w m
    let rest := add_messages r.1 ms
    (rest.1, r.2 :: rest.2)

/-- The messages of a tree in the order `add_rust_messages` iterates them
(`Message.__iter__`: primary first, then children). -/
def treeMsgs (t : PrimaryTree) : List Message :=
  t.primary :: t.children

/-- Insert a built tree into the session (the `add_message` loop at the
end of `add_rust_messages`). -/
def insertTree (w : WinInfo) (t : PrimaryTree) : WinInfo :=
  (add_messages w (treeMsgs t)).1

/-- Total number of stored entries in a session. -/
def entryCount (w : WinInfo) : Nat :=
  (w.paths.map (fun e => e.2.length)).sum

/-- The fresh collection state `add_rust_messages` starts from
(`primary_message = Message()`). -/
def freshC : CState := { msg := {}, children := [], cb := [] }

/-- `add_rust_messages` for one already-unwrapped record: build the tree,
drop it when no primary path was established, otherwise run the cross-link
pass and insert every message.  Returns the new session state and the
`msg_cb` deliveries from the collection phase.  The `_create_minihtml`
rendering pass only fills display markup and is not modelled. -/
def add_rust_messages (cfg : Cfg) (w : WinInfo) (d : Diag) :
    WinInfo × List Message :=
  let st := collect cfg d none freshC
  if st.msg.path = none then (w, st.cb)
  else
    let t := create_cross_links { primary := st.msg, children := st.children }
    (insertTree w t, st.cb)

/-- Severity rank of `_sort_messages`: error 0, warning 1, note 2, help 3,
anything else 0 (`dict.get` default). -/
def levelRank (m : Message) : Nat :=
  match m.level with
  | some "error" => 0
  | some "warning" => 1
  | some "note" => 2
  | some "help" => 3
  | _ => 0

/-- Sort item `(level, path, lineno, message)` built by `_sort_messages`. -/
abbrev SortItem := Nat × Option String × Nat × Message

/-- Sort key `x[:3]` of an item. -/
def itemKey (x : SortItem) : Nat × Option String × Nat :=
  (x.1, x.2.1, x.2.2.1)

/-- Python-tuple comparison of sort keys: lexicographic on
`(level, path, lineno)` with string comparison on the path. -/
def keyLe (a b : Nat × Option String × Nat) : Bool :=
  a.1 < b.1 || (a.1 = b.1 &&
    (optStrLt a.2.1 b.2.1 || (a.2.1 = b.2.1 && a.2.2 ≤ b.2.2)))
where
  /-- String order on the optional path (a stored path is present whenever
  `_sort_messages` runs; `none` is ordered first for totality). -/
  optStrLt : Option String → Option String → Bool
  | none, none => false
  | none, some _ => true
  | some _, none => false
  | some a, some b => a < b

/-- Item comparison used for the stable sort. -/
def itemLe (a b : SortItem) : Prop :=
  keyLe (itemKey a) (itemKey b) = true

instance : DecidableRel itemLe := fun a b => by
  unfold itemLe; infer_instance

/-- The `items` list of `_sort_messages`: every stored message tagged with
its severity rank, dict path and line. -/
def itemsOf (w : WinInfo) : List SortItem :=
  w.paths.flatMap (fun e => e.2.map (fun m => (levelRank m, e.1, m.lineno, m)))

/-- Rebuild the ordered dict from the sorted items
(`setdefault`/`append` loop of `_sort_messages`). -/
def regroup (l : List SortItem) : List (Option String × List Message) :=
  l.foldl (fun acc x => putAppend acc x.2.1 x.2.2.2) []

/-- `_sort_messages`: stable-sort all items by `(level, path, lineno)` and
regroup by path.  Python's `list.sort` is a stable sort; a stable sort's
output is uniquely determined, so Mathlib's insertion sort (which keeps
the first of two tied items first) is the same function. -/
def sort_messages (w : WinInfo) : WinInfo :=
  { w with paths := regroup (List.insertionSort itemLe (itemsOf w)) }

/-- `_is_matching_level`: only primary messages are navigation targets;
`levels` is the filter string from the key binding. -/
def is_matching_level (levels : String) (m : Message) : Bool :=
  if !m.primary then false
  else if levels = "all" then true
  else if levels = "error" then m.level = some "error"
  else if levels = "warning" then m.level != some "error"
  else false

/-- Offset of the first matching message in a list. -/
def firstMatch (levels : String) : List Message → Option Nat
  | [] => none
  | m :: ms =>
    if is_matching_level levels m then some 0
    else (firstMatch levels ms).map (· + 1)

/-- First matching index at or after `j` in one path's message list (the
inner `while` loop of `_advance_next_message`). -/
def findFrom (levels : String) (ms : List Message) (j : Nat) : Option Nat :=
  (firstMatch levels (ms.drop j)).map (j + ·)

/-- Outer `while` loop of `_advance_next_message`: scan the path lists
from the current position (first list from `j`, later lists from 0). -/
def scanFwd (levels : String) : List (List Message) → Nat → Option (Nat × Nat)
  | [], _ => none
  | ms :: rest, j =>
    match findFrom levels ms j with
    | some k => some (0, k)
    | none => (scanFwd levels rest 0).map (fun ij => (ij.1 + 1, ij.2))

/-- The stored message lists in dict order. -/
def plsOf (w : WinInfo) : List (List Message) :=
  w.paths.map (fun e => e.2)

/-- Scan from an arbitrary `(path_idx, msg_idx)` position. -/
def scanPos (levels : String) (pls : List (List Message)) (pi mi : Nat) :
    Option (Nat × Nat) :=
  (scanFwd levels (pls.drop pi) mi).map (fun ij => (pi + ij.1, ij.2))

/-- `_advance_next_message`: move the cursor to the next matching entry,
wrapping around once; on total failure reset the cursor and return none. -/
def advance_next_message (levels : String) (w : WinInfo) :
    Option (Nat × Nat) × WinInfo :=
  let pls := plsOf w
  let start : Nat × Nat :=
    match w.msg_index with
    | none => (0, 0)
    | some ij => (ij.1, ij.2 + 1)
  match scanPos levels pls start.1 start.2 with
  | some idx => (some idx, { w with msg_index := some idx })
  | none =>
    match scanPos levels pls 0 0 with
    | some idx => (some idx, { w with msg_index := some idx })
    | none => (none, { w with msg_index := none })

/-- Run `n` successive advance calls, threading the session state. -/
def runAdvance (levels : String) (w : WinInfo) :
    Nat → List (Option (Nat × Nat)) × WinInfo
  | 0 => ([], w)
  | n + 1 =>
    let r := advance_next_message levels w
    let rest := runAdvance levels r.2 n
    (r.1 :: rest.1, rest.2)

/-- Matching indices within one message list, in order. -/
def matchIn (levels : String) : List Message → List Nat
  | [] => []
  | m :: ms =>
    (if is_matching_level levels m then [0] else []) ++
      (matchIn levels ms).map (· + 1)

/-- All matching `(path_idx, msg_idx)` positions in flattened order. -/
def matchIdxs (levels : String) : List (List Message) → List (Nat × Nat)
  | [] => []
  | ms :: rest =>
    (matchIn levels ms).map (fun j => (0, j)) ++
      (matchIdxs levels rest).map (fun ij => (ij.1 + 1, ij.2))

/-- Lexicographic strict order on `(path_idx, msg_idx)` positions. -/
def idxLt (a b : Nat × Nat) : Prop :=
  a.1 < b.1 ∨ (a.1 = b.1 ∧ a.2 < b.2)

instance : DecidableRel idxLt := fun a b => by
  unfold idxLt; infer_instance

/-- The quick-panel index list built by `list_messages`: every stored
message position whose message is primary, in flattened order (the
`jump_to` list; no `hidden` filter appears in the source). -/
def jumpTo (w : WinInfo) : List (Nat × Nat) :=
  matchIdxs "all" (plsOf w)

/-- `Message.dismiss` on a primary tree: every message of the tree is
marked hidden (the region/phantom erasure is editor-side).  The session
storage is not touched by `dismiss`. -/
def dismissTree (t : PrimaryTree) : PrimaryTree :=
  { primary := { t.primary with hidden := true },
    children := t.children.map (fun c => { c with hidden := true }) }

/-- Visibility condition of `_show_phantom`
(`if message.hidden or not message.minihtml_text: return`). -/
def show_phantom_visible (m : Message) : Bool :=
  !m.hidden && m.minihtml_text.isSome

/-- Message-selection filter of `_draw_region_highlights` (hidden messages
are skipped when regions are drawn). -/
def highlightVisible (ms : List Message) : List Message :=
  ms.filter (fun m => !m.hidden)

/-- Rewrite every stored message's hidden flag (used to state that
navigation and listing ignore the flag). -/
def mapHidden (f : Message → Bool) (w : WinInfo) : WinInfo :=
  { w with paths := w.paths.map (fun e =>
      (e.1, e.2.map (fun m => { m with hidden := f m }))) }

/-- A span with no macro involvement: ordinary file name, no expansion
chain.  The macro branches of the span loop are inert for such spans. -/
def plainSpan (s : JSpan) : Bool :=
  !containsMacros s.core.file_name && s.expn.isNone

/-- The child that `_collect_rust_messages` appends for a primary span
when the primary message is already established (the fold of a
subsequent primary span, carrying the record's main message). -/
def foldChildOf (cfg : Cfg) (dmsg dlevel : String) (s : JSpan) : Message :=
  { path := some (make_span_path cfg s.core.file_name),
    span := make_span_region s,
    text := some dmsg,
    level := some dlevel,
    primary := false }

/-- The child that the label branch appends for a span with a non-null
label. -/
def labelChildOf (cfg : Cfg) (dlevel : String) (s : JSpan) (lb : String) : Message :=
  { path := some (make_span_path cfg s.core.file_name),
    span := make_span_region s,
    text := some lb,
    level := some dlevel,
    primary := false }

/-- Children extension order: the second state has the same primary
message and callback log and extends the children list. -/
def cext (a b : CState) : Prop :=
  b.msg = a.msg ∧ b.cb = a.cb ∧ a.children <+: b.children

/-- Specification-side description of the distant-child selection of
`_create_cross_links`: the first distant child of each new `(path, line)`
key, in order.  Compared against the source translation `clGo`. -/
def firstDistants (p : Message) (seen : List (Option String × Nat)) :
    List Message → List Message
  | [] => []
  | c :: cs =>
    if isDistant p c then
      if seen.contains (childKey c) then firstDistants p seen cs
      else c :: firstDistants p (childKey c :: seen) cs
    else firstDistants p seen cs

/-- Specification-side key de-duplication (first occurrence survives). -/
def dedupKeys (seen : List (Option String × Nat)) :
    List (Option String × Nat) → List (Option String × Nat)
  | [] => []
  | k :: ks =>
    if seen.contains k then dedupKeys seen ks
    else k :: dedupKeys (k :: seen) ks

/-- Keys of the distant children of a primary. -/
def distantKeys (p : Message) (cs : List Message) : List (Option String × Nat) :=
  (cs.filter (isDistant p)).map childKey

/-- Per-path message order claimed by the spec for `sort()`:
`(severity rank, line)`. -/
def msgLe (a b : Message) : Prop :=
  (levelRank a < levelRank b ∨ (levelRank a = levelRank b ∧ a.lineno ≤ b.lineno))

-- Concrete states used by counterexamples and witnesses.

/-- A primary error at line 1 of file a. -/
def exErrA : Message :=
  { path := some "a", span := some ((1, 0), (1, 1)),
    level := some "error", text := some "x" }

/-- A primary help message at line 9 of file a. -/
def exHelpA : Message :=
  { path := some "a", span := some ((9, 0), (9, 1)),
    level := some "help", text := some "h" }

/-- A primary warning at line 2 of file b. -/
def exWarnB : Message :=
  { path := some "b", span := some ((2, 0), (2, 1)),
    level := some "warning", text := some "y" }

/-- Session with two matching entries in two files, unset cursor. -/
def exWin : WinInfo :=
  { paths := [(some "a", [exErrA]), (some "b", [exWarnB])], msg_index := none }

/-- Session holding a single hidden primary error. -/
def exWinHidden : WinInfo :=
  { paths := [(some "a", [{ exErrA with hidden := true }])], msg_index := none }

/-- Session whose sorted form is not globally ordered by
`(severity, path, line)`. -/
def exWinSort : WinInfo :=
  { paths := [(some "a", [exHelpA, exErrA]), (some "b", [exWarnB])],
    msg_index := none }

/-- Primary at line 0 of file a, for the cross-link examples. -/
def exPrim : Message :=
  { path := some "a", span := some ((0, 0), (0, 1)),
    level := some "error", text := some "p" }

/-- A distant child at line 10 of file a. -/
def exChildTen : Message :=
  { path := some "a", span := some ((10, 0), (10, 1)),
    level := some "note", text := some "c1", primary := false }

/-- Tree with two distant children on the same line. -/
def exTreeDup : PrimaryTree :=
  { primary := exPrim,
    children := [exChildTen, { exChildTen with text := some "c2" }] }

/-- Standard configuration for the builder examples. -/
def exCfg : Cfg := { base_path := "/proj", target_path := some "/proj/main.rs" }

/-- A plain span at 1-based line `ls` with the given primary flag and
label. -/
def exSpan (ls : Nat) (prim : Bool) (lb : Option String) : JSpan :=
  .mk { file_name := "src/main.rs", lineInfo := some ⟨ls, 5, ls, 8⟩,
        is_primary := prim, label := lb, suggested_replacement := none,
        texts := [] } none

/-- Record with a single primary span carrying an empty-string label. -/
def exDiagEmptyLabel : Diag :=
  .mk "mismatched types" "error" none [exSpan 10 true (some "")] []

/-- Record with two primary spans and no labels. -/
def exDiagTwoPrimary : Diag :=
  .mk "two borrows" "error" none [exSpan 10 true none, exSpan 20 true none] []

/-- `keyLe.optStrLt` as a proposition. -/
def pathLt : Option String → Option String → Prop
  | none, none => False
  | none, some _ => True
  | some _, none => False
  | some a, some b => a < b

/-- The sort-key comparison as a proposition. -/
def keyLeP (a b : Nat × Option String × Nat) : Prop :=
  a.1 < b.1 ∨ (a.1 = b.1 ∧ (pathLt a.2.1 b.2.1 ∨ (a.2.1 = b.2.1 ∧ a.2.2 ≤ b.2.2)))

/-- Tag coherence: an item's rank and line tags match its message payload. -/
def coh (x : SortItem) : Prop :=
  x.1 = levelRank x.2.2.2 ∧ x.2.2.1 = x.2.2.2.lineno

/-- The message list grouped under path `p` when regrouping item list `s`. -/
def projFilter (p : Option String) (s : List SortItem) : List Message :=
  (s.filter (fun x => decide (x.2.1 = p))).map (fun x => x.2.2.2)

/-! ## Theorems -/

/-- The span returned by `find_span_r` carries no further expansion. -/
lemma findSpanR_root_expn (s : JSpan) (e : Option (JSpan × String × Option JSpan)) :
    (findSpanR s e).1.expn = none := by
  match s, e with
  | .mk c (some (s', dn, ds)), e =>
      rw [findSpanR]
      exact findSpanR_root_expn s' (some (s', dn, ds))
  | .mk c none, e => rfl

/-- C6: for a macro-expansion chain leaf → mid → root where only the root
has no further expansion, span resolution yields the root's location
(file name and line/column block) combined with the leaf's original
`is_primary`, `label` and `suggested_replacement`. -/
theorem c6_macro_root_resolution (lc mc rc : SpanCore) (dn1 dn2 : String)
    (ds1 ds2 : Option JSpan) :
    (JSpan.mk rc none).expn = none ∧
    (JSpan.mk mc (some (JSpan.mk rc none, dn2, ds2))).expn ≠ none ∧
    (resolvedSpan (JSpan.mk lc (some (JSpan.mk mc (some (JSpan.mk rc none, dn2, ds2)), dn1, ds1)))).core.file_name = rc.file_name ∧
    (resolvedSpan (JSpan.mk lc (some (JSpan.mk mc (some (JSpan.mk rc none, dn2, ds2)), dn1, ds1)))).core.lineInfo = rc.lineInfo ∧
    (resolvedSpan (JSpan.mk lc (some (JSpan.mk mc (some (JSpan.mk rc none, dn2, ds2)), dn1, ds1)))).core.is_primary = lc.is_primary ∧
    (resolvedSpan (JSpan.mk lc (some (JSpan.mk mc (some (JSpan.mk rc none, dn2, ds2)), dn1, ds1)))).core.label = lc.label ∧
    (resolvedSpan (JSpan.mk lc (some (JSpan.mk mc (some (JSpan.mk rc none, dn2, ds2)), dn1, ds1)))).core.suggested_replacement = lc.suggested_replacement := by
  refine ⟨rfl, by simp [JSpan.expn], ?_, ?_, ?_, ?_, ?_⟩ <;>
    simp [resolvedSpan, findSpanR, withFlags, JSpan.core, JSpan.expn]

/-- `lookupPath` / `putAppend` interaction on raw dict lists. -/
lemma lookupPath_putAppend (l : List (Option String × List Message))
    (p q : Option String) (m : Message) :
    lookupPath (putAppend l p m) q =
      if q = p then lookupPath l p ++ [m] else lookupPath l q := by
  induction l with
  | nil =>
      by_cases hqp : q = p
      · simp [putAppend, lookupPath, hqp]
      · have hpq : ¬ p = q := fun h => hqp h.symm
        simp [putAppend, lookupPath, hqp, hpq]
  | cons e es ih =>
      by_cases hep : e.1 = p
      · by_cases heq : e.1 = q
        · have hqp : q = p := heq ▸ hep
          simp [putAppend, lookupPath, hep, heq, hqp]
        · have hqp : ¬ q = p := fun h => heq (h ▸ hep)
          have hpq : ¬ p = q := fun h => hqp h.symm
          simp [putAppend, lookupPath, hep, heq, hqp, hpq]
      · by_cases heq : e.1 = q
        · have hqp : ¬ q = p := fun h => hep (h ▸ heq)
          simp [putAppend, lookupPath, hep, heq, hqp]
        · simp [putAppend, lookupPath, hep, heq, ih]

/-- `storedAt` / `storeAppend` interaction: appending under `p` appends to
the stored list of `p` and leaves other paths unchanged. -/
lemma storedAt_storeAppend (w : WinInfo) (p q : Option String) (m : Message) :
    storedAt (storeAppend w p m) q =
      if q = p then storedAt w p ++ [m] else storedAt w q := by
  unfold storedAt storeAppend
  exact lookupPath_putAppend w.paths p q m

/-- `add_message` leaves every existing stored message in place. -/
lemma storedAt_mono (w : WinInfo) (m : Message) (q : Option String)
    (o : Message) (h : o ∈ storedAt w q) :
    o ∈ storedAt (add_message w m).1 q := by
  unfold add_message
  by_cases hmac : containsMacros (m.path.getD "")
  · simpa [hmac]
  · by_cases hsim : (storedAt w m.path).any (fun o => m.is_similar o)
    · simpa [hmac, hsim]
    · simp only [hmac, hsim, Bool.false_eq_true, if_false, if_true]
      rw [storedAt_storeAppend]
      by_cases hq : q = m.path
      · subst hq; simp [h]
      · simpa [hq]

/-- After `add_message`, some stored message at the message's path is
similar to it (either it was just stored, or a similar one already was). -/
lemma add_message_similar (w : WinInfo) (m : Message)
    (hmac : containsMacros (m.path.getD "") = false) :
    ∃ o ∈ storedAt (add_message w m).1 m.path, m.is_similar o = true := by
  unfold add_message
  by_cases hsim : (storedAt w m.path).any (fun o => m.is_similar o)
  · rcases List.any_eq_true.mp hsim with ⟨o, ho, hs⟩
    exact ⟨o, by simpa [hmac, hsim] using ho, hs⟩
  · refine ⟨{ m with region_key := some ((storedAt w m.path).length + 1) }, ?_, ?_⟩
    · simp only [hmac, Bool.false_eq_true, if_false, hsim, if_true]
      rw [storedAt_storeAppend]
      simp
    · simp [Message.is_similar]

/-- `add_message` is a no-op when a similar message is already stored. -/
lemma add_message_noop (w : WinInfo) (m : Message)
    (h : containsMacros (m.path.getD "") = true ∨
         ∃ o ∈ storedAt w m.path, m.is_similar o = true) :
    add_message w m = (w, false) := by
  unfold add_message
  rcases h with h | ⟨o, ho, hs⟩
  · simp [h]
  · have : (storedAt w m.path).any (fun o => m.is_similar o) = true :=
      List.any_eq_true.mpr ⟨o, ho, hs⟩
    by_cases hmac : containsMacros (m.path.getD "") <;> simp [hmac, this]

/-- Each message of a processed batch ends up with a similar stored
message at its path (unless it has a synthetic macro path). -/
lemma add_messages_similar (ms : List Message) (w : WinInfo)
    (m : Message) (hm : m ∈ ms)
    (hmac : containsMacros (m.path.getD "") = false) :
    ∃ o ∈ storedAt (add_messages w ms).1 m.path, m.is_similar o = true := by
  induction ms generalizing w with
  | nil => cases hm
  | cons x xs ih =>
      rcases List.mem_cons.mp hm with hm | hm
      · subst hm
        rcases add_message_similar w m hmac with ⟨o, ho, hs⟩
        refine ⟨o, ?_, hs⟩
        unfold add_messages
        have mono : ∀ (w' : WinInfo) (ys : List Message) (q : Option String)
            (o' : Message), o' ∈ storedAt w' q →
            o' ∈ storedAt (add_messages w' ys).1 q := by
          intro w' ys
          induction ys generalizing w' with
          | nil => intro q o' h; simpa [add_messages] using h
          | cons y ys ihy =>
              intro q o' h
              unfold add_messages
              exact ihy _ _ _ (storedAt_mono _ _ _ _ h)
        exact mono _ _ _ _ ho
      · unfold add_messages
        exact ih _ hm

/-- A batch in which every message already has a similar stored partner
(or a macro path) leaves the session unchanged. -/
lemma add_messages_noop (ms : List Message) (w : WinInfo)
    (h : ∀ m ∈ ms, containsMacros (m.path.getD "") = true ∨
         ∃ o ∈ storedAt w m.path, m.is_similar o = true) :
    add_messages w ms = (w, ms.map (fun _ => false)) := by
  induction ms with
  | nil => rfl
  | cons x xs ih =>
      have hx := add_message_noop w x (h x (List.mem_cons_self x xs))
      unfold add_messages
      rw [hx]
      simp [ih (fun m hm => h m (List.mem_cons_of_mem x hm))]

/-- Re-inserting a tree is a complete no-op on the session state. -/
lemma insertTree_idem (w : WinInfo) (t : PrimaryTree) :
    insertTree (insertTree w t) t = insertTree w t := by
  unfold insertTree
  have h : add_messages (add_messages w (treeMsgs t)).1 (treeMsgs t) =
      ((add_messages w (treeMsgs t)).1, (treeMsgs t).map (fun _ => false)) := by
    apply add_messages_noop
    intro m hm
    by_cases hmac : containsMacros (m.path.getD "")
    · exact Or.inl hmac
    · exact Or.inr (add_messages_similar _ w m hm (by simpa using hmac))
  rw [h]

/-- C3: inserting the same built tree twice into a fresh session yields
the entry count of one insertion; the per-path `(severity, region, text)`
similarity check makes the second insertion a no-op. -/
theorem c3_idempotent_insert (t : PrimaryTree) :
    entryCount (insertTree (insertTree { paths := [], msg_index := none } t) t) =
      entryCount (insertTree { paths := [], msg_index := none } t) := by
  rw [insertTree_idem]

/-- The links returned by the cross-link loop are exactly one `mkLink` per
first distant child of each new key. -/
lemma clGo_links (p : Message) (seen : List (Option String × Nat))
    (cs : List Message) :
    (clGo p seen cs).2 = (firstDistants p seen cs).map (mkLink p) := by
  induction cs generalizing seen with
  | nil => rfl
  | cons c cs ih =>
      by_cases hd : isDistant p c
      · by_cases hseen : childKey c ∈ seen
        · simp [clGo, firstDistants, hd, hseen, ih]
        · simp [clGo, firstDistants, hd, hseen, ih]
      · simp [clGo, firstDistants, hd, ih]

/-- The keys of the selected first distant children are the de-duplicated
distant keys. -/
lemma firstDistants_keys (p : Message) (seen : List (Option String × Nat))
    (cs : List Message) :
    (firstDistants p seen cs).map childKey =
      dedupKeys seen (distantKeys p cs) := by
  induction cs generalizing seen with
  | nil => rfl
  | cons c cs ih =>
      by_cases hd : isDistant p c
      · by_cases hseen : childKey c ∈ seen
        · simp [firstDistants, distantKeys, dedupKeys, hd, hseen, ih,
            List.filter_cons]
        · simp [firstDistants, distantKeys, dedupKeys, hd, hseen, ih,
            List.filter_cons]
      · simp [firstDistants, distantKeys, dedupKeys, hd, ih, List.filter_cons]

/-- Pointwise description of the updated children list of the cross-link
loop: the back link is set exactly on a distant child whose key is not in
the link set accumulated so far. -/
lemma clGo_children_get (p : Message) (cs : List Message) :
    ∀ (seen : List (Option String × Nat)) (i : Nat) (c : Message),
    cs.get? i = some c →
    (clGo p seen cs).1.get? i = some (
      if childKey c ∈ seen ∨ childKey c ∈ distantKeys p (cs.take i) ∨
          isDistant p c = false then
        c
      else { c with back_link := some (make_file_path p) }) := by
  induction cs with
  | nil => intro seen i c h; cases h
  | cons c0 cs ih =>
      intro seen i c h
      match i with
      | 0 =>
          have hc : c0 = c := by simpa using h
          subst hc
          by_cases hd : isDistant p c0
          · by_cases hseen : childKey c0 ∈ seen
            · simp [clGo, hd, hseen, distantKeys]
            · simp [clGo, hd, hseen, distantKeys]
          · simp [clGo, hd, distantKeys]
      | Nat.succ i =>
          have h' : cs.get? i = some c := by simpa using h
          have hkeys : distantKeys p ((c0 :: cs).take (i + 1)) =
              (if isDistant p c0 then [childKey c0] else []) ++
                distantKeys p (cs.take i) := by
            by_cases hd0 : isDistant p c0 <;>
              simp [distantKeys, List.take_succ_cons, List.filter_cons, hd0]
          by_cases hd0 : isDistant p c0
          · by_cases hseen0 : childKey c0 ∈ seen
            · have hstep : clGo p seen (c0 :: cs) =
                  (c0 :: (clGo p seen cs).1, (clGo p seen cs).2) := by
                simp [clGo, hd0, hseen0]
              rw [hstep]
              simp only [List.get?_cons_succ]
              rw [ih seen i c h']
              congr 1
              apply if_congr _ rfl rfl
              rw [hkeys, if_pos hd0]
              simp only [List.mem_append, List.mem_singleton]
              constructor
              · tauto
              · rintro (hx | (hx | hx) | hx)
                · tauto
                · exact Or.inl (hx ▸ hseen0)
                · tauto
                · tauto
            · have hstep : clGo p seen (c0 :: cs) =
                  ({ c0 with back_link := some (make_file_path p) } ::
                      (clGo p (childKey c0 :: seen) cs).1,
                    mkLink p c0 :: (clGo p (childKey c0 :: seen) cs).2) := by
                simp [clGo, hd0, hseen0]
              rw [hstep]
              simp only [List.get?_cons_succ]
              rw [ih (childKey c0 :: seen) i c h']
              congr 1
              apply if_congr _ rfl rfl
              rw [hkeys, if_pos hd0]
              simp only [List.mem_cons, List.mem_append, List.mem_singleton]
              tauto
          · have hstep : clGo p seen (c0 :: cs) =
                (c0 :: (clGo p seen cs).1, (clGo p seen cs).2) := by
              simp [clGo, hd0]
            rw [hstep]
            simp only [List.get?_cons_succ]
            rw [ih seen i c h']
            congr 1
            apply if_congr _ rfl rfl
            rw [hkeys, if_neg hd0]
            simp

/-- C5 counterexample: in a tree whose two children sit on the same
distant line, the second child is distant yet its `back_link` stays
unset (the loop `continue`s on the already-seen `(path, line)` key before
assigning the back link). -/
theorem c5_counterexample :
    isDistant exTreeDup.primary { exChildTen with text := some "c2" } = true ∧
    ((create_cross_links exTreeDup).children.get? 1).map Message.back_link =
      some none := by
  constructor
  · decide
  · rfl

/-- C5 (amended): among the distant children (different file or more than
5 lines away), only the first child of each distinct `(path, line)` key
receives a back link, and exactly one forward-link entry is appended per
distinct key; near children are left untouched and generate no link. -/
theorem c5_distant_child_links (t : PrimaryTree) :
    (create_cross_links t).children =
      (clGo t.primary [] t.children).1 ++ linksOf t ∧
    linksOf t = (firstDistants t.primary [] t.children).map (mkLink t.primary) ∧
    (linksOf t).length =
      (dedupKeys [] (distantKeys t.primary t.children)).length ∧
    (∀ i c, t.children.get? i = some c →
      (clGo t.primary [] t.children).1.get? i = some (
        if childKey c ∈ distantKeys t.primary (t.children.take i) ∨
            isDistant t.primary c = false then
          c
        else { c with back_link := some (make_file_path t.primary) })) := by
  refine ⟨rfl, clGo_links _ _ _, ?_, ?_⟩
  · rw [linksOf, clGo_links, ← firstDistants_keys]
    simp
  · intro i c h
    have hrec := clGo_children_get t.primary t.children [] i c h
    simpa using hrec

/-- Witness for C5: in the duplicate-line tree the first distant child is
decorated with a back link and exactly one link entry is appended. -/
theorem c5_distant_child_links_witness :
    (clGo exTreeDup.primary [] exTreeDup.children).1.get? 0 =
      some { exChildTen with back_link := some (make_file_path exTreeDup.primary) } ∧
    (linksOf exTreeDup).length = 1 := by
  have h := c5_distant_child_links exTreeDup
  constructor
  · rw [h.2.2.2 0 exChildTen rfl]
    decide
  · rw [h.2.2.1]
    decide

/-- Every synthesized link entry copies the primary's path, span and
level and has no plain text. -/
lemma linksOf_fields (t : PrimaryTree) :
    ∀ l ∈ linksOf t,
      l.path = t.primary.path ∧ l.span = t.primary.span ∧
      l.level = t.primary.level ∧ l.text = none := by
  intro l hl
  rw [linksOf, clGo_links] at hl
  rcases List.mem_map.mp hl with ⟨c, _, rfl⟩
  exact ⟨rfl, rfl, rfl, rfl⟩

/-- Similarity chains across shared `(path, span, level, text)` fields. -/
lemma is_similar_chain (a b c : Message)
    (h1 : a.is_similar b = true) (h2 : b.is_similar c = true) :
    a.is_similar c = true := by
  simp only [Message.is_similar, Bool.and_eq_true, decide_eq_true_eq] at h1 h2 ⊢
  exact ⟨⟨⟨h2.1.1.1.trans h1.1.1.1, h2.1.1.2.trans h1.1.1.2⟩,
    h2.1.2.trans h1.1.2⟩, h2.2.trans h1.2⟩

/-- `add_message` returns the unchanged session whenever it skips. -/
lemma add_message_skip (w : WinInfo) (m : Message)
    (h : (add_message w m).2 = false) : (add_message w m).1 = w := by
  unfold add_message at h ⊢
  by_cases hmac : containsMacros (m.path.getD "")
  · simp [hmac]
  · by_cases hsim : (storedAt w m.path).any (fun o => m.is_similar o)
    · simp [hmac, hsim]
    · simp [hmac, hsim] at h

/-- Batch processing over an append splits into two batches. -/
lemma add_messages_append (w : WinInfo) (xs ys : List Message) :
    add_messages w (xs ++ ys) =
      ((add_messages (add_messages w xs).1 ys).1,
       (add_messages w xs).2 ++ (add_messages (add_messages w xs).1 ys).2) := by
  induction xs generalizing w with
  | nil => simp [add_messages]
  | cons x xs ih =>
      simp only [List.cons_append, add_messages, List.append_eq]
      rw [ih ((add_message w x).1)]

/-- One flag is produced per processed message. -/
lemma add_messages_length (w : WinInfo) (ms : List Message) :
    (add_messages w ms).2.length = ms.length := by
  induction ms generalizing w with
  | nil => rfl
  | cons m ms ih => simp [add_messages, ih]

/-- A batch of pairwise-similar messages is stored at most once: after the
first one is stored, the per-path similarity check rejects the rest. -/
lemma add_messages_similar_once (ms : List Message) (w : WinInfo)
    (h : ∀ a ∈ ms, ∀ b ∈ ms, a.is_similar b = true) :
    ((add_messages w ms).2.count true) ≤ 1 := by
  induction ms generalizing w with
  | nil => simp [add_messages]
  | cons m ms ih =>
      by_cases hs : (add_message w m).2 = true
      · -- m was stored; every later similar message is rejected
        by_cases hmac : containsMacros (m.path.getD "")
        · exfalso
          unfold add_message at hs
          simp [hmac] at hs
        · rcases add_message_similar w m (by simpa using hmac) with ⟨o, ho, hmo⟩
          have hrest : add_messages (add_message w m).1 ms =
              ((add_message w m).1, ms.map (fun _ => false)) := by
            apply add_messages_noop
            intro m' hm'
            have hsim' : m'.is_similar m = true :=
              h m' (List.mem_cons_of_mem m hm') m (List.mem_cons_self m ms)
            have hpath : m.path = m'.path := by
              simp only [Message.is_similar, Bool.and_eq_true,
                decide_eq_true_eq] at hsim'
              exact hsim'.1.1.1
            refine Or.inr ⟨o, ?_, is_similar_chain m' m o hsim' hmo⟩
            rwa [← hpath]
          simp only [add_messages]
          rw [hrest]
          simp [List.count_cons, List.count_replicate, hs]
      · have hw : (add_message w m).1 = w :=
          add_message_skip w m (by simpa using hs)
        simp only [add_messages]
        rw [hw]
        have hms := ih w (fun a ha b hb =>
          h a (List.mem_cons_of_mem m ha) b (List.mem_cons_of_mem m hb))
        simp only [List.count_cons]
        have hflag : ((add_message w m).2 == true) = false := by
          simpa using hs
        simpa [hflag] using hms

/-- C10: link entries carry the primary's path, span and severity with no
plain text; they are therefore all mutually similar, and when the linked
tree is inserted, at most one link entry survives the per-path similarity
check (at most one `true` flag among the link positions). -/
theorem c10_single_link_stored (t : PrimaryTree) (w : WinInfo) :
    (∀ l ∈ linksOf t,
      l.path = t.primary.path ∧ l.span = t.primary.span ∧
      l.level = t.primary.level ∧ l.text = none) ∧
    (∀ a ∈ linksOf t, ∀ b ∈ linksOf t, a.is_similar b = true) ∧
    ((add_messages w (treeMsgs (create_cross_links t))).2.drop
        (1 + (clGo t.primary [] t.children).1.length)).count true ≤ 1 := by
  have hfields := linksOf_fields t
  have hsim : ∀ a ∈ linksOf t, ∀ b ∈ linksOf t, a.is_similar b = true := by
    intro a ha b hb
    rcases hfields a ha with ⟨ha1, ha2, ha3, ha4⟩
    rcases hfields b hb with ⟨hb1, hb2, hb3, hb4⟩
    simp [Message.is_similar, ha1, ha2, ha3, ha4, hb1, hb2, hb3, hb4]
  refine ⟨hfields, hsim, ?_⟩
  have hsplit : treeMsgs (create_cross_links t) =
      (t.primary :: (clGo t.primary [] t.children).1) ++ linksOf t := by
    simp [treeMsgs, create_cross_links, linksOf]
  rw [hsplit, add_messages_append]
  have hlen : (add_messages w (t.primary :: (clGo t.primary [] t.children).1)).2.length =
      1 + (clGo t.primary [] t.children).1.length := by
    rw [add_messages_length]
    simp [Nat.add_comm]
  rw [List.drop_append_of_le_length (by omega)]
  rw [List.drop_of_length_le (by omega)]
  simp only [List.nil_append]
  exact add_messages_similar_once _ _ hsim

/-- Witness for C10: the duplicate-line tree inserted into a fresh
session stores at most one link flag, and its link entry carries the
primary's fields with no text. -/
theorem c10_single_link_stored_witness :
    (mkLink exPrim exChildTen).text = none ∧
    (mkLink exPrim exChildTen).path = exTreeDup.primary.path ∧
    ((add_messages { paths := [], msg_index := none }
        (treeMsgs (create_cross_links exTreeDup))).2.drop
        (1 + (clGo exTreeDup.primary [] exTreeDup.children).1.length)).count true ≤ 1 := by
  have h := c10_single_link_stored exTreeDup { paths := [], msg_index := none }
  have hmem : mkLink exPrim exChildTen ∈ linksOf exTreeDup := by decide
  rcases h.1 _ hmem with ⟨h1, _, _, h4⟩
  exact ⟨h4, h1, h.2.2⟩

/-- `find?` over a mapped list. -/
lemma find?_map_gen {α β : Type} (f : α → β) (p : β → Bool) (l : List α) :
    (l.map f).find? p = (l.find? (fun a => p (f a))).map f := by
  induction l with
  | nil => rfl
  | cons a l ih =>
      by_cases h : p (f a)
      · simp [List.find?_cons, h]
      · simp [List.find?_cons, h, ih]

/-- `find?` respects pointwise-equal predicates. -/
lemma find?_congr_gen {α : Type} (p q : α → Bool) (l : List α)
    (h : ∀ a, p a = q a) : l.find? p = l.find? q := by
  have : p = q := funext h
  rw [this]

/-- `find?` with an everywhere-true predicate returns the head. -/
lemma find?_true_head {α : Type} (p : α → Bool) (l : List α)
    (h : ∀ a ∈ l, p a = true) : l.find? p = l.head? := by
  cases l with
  | nil => rfl
  | cons a l => simp [List.find?_cons, h a (List.mem_cons_self a l)]

/-- `firstMatch` returns the head of the match list. -/
lemma firstMatch_eq (levels : String) (ms : List Message) :
    firstMatch levels ms = (matchIn levels ms).head? := by
  induction ms with
  | nil => rfl
  | cons m ms ih =>
      by_cases h : is_matching_level levels m
      · simp [firstMatch, matchIn, h]
      · simp [firstMatch, matchIn, h, ih]

/-- `findFrom` finds the first matching index at or after `j`. -/
lemma findFrom_eq (levels : String) (ms : List Message) (j : Nat) :
    findFrom levels ms j =
      (matchIn levels ms).find? (fun k => decide (j ≤ k)) := by
  induction ms generalizing j with
  | nil => simp [findFrom, matchIn, firstMatch]
  | cons m ms ih =>
      match j with
      | 0 =>
          rw [findFrom, List.drop_zero, firstMatch_eq]
          rw [find?_true_head _ _ (fun a _ => by simp)]
          cases (matchIn levels (m :: ms)).head? <;> simp
      | Nat.succ j =>
          have hL : findFrom levels (m :: ms) (j + 1) =
              (findFrom levels ms j).map (· + 1) := by
            rw [findFrom, findFrom, List.drop_succ_cons]
            cases firstMatch levels (ms.drop j) with
            | none => simp
            | some v => simp; omega
          rw [hL, ih]
          rw [matchIn]
          rw [List.find?_append]
          have h0 : (if is_matching_level levels m then [0] else []).find?
              (fun k => decide (j + 1 ≤ k)) = none := by
            by_cases h : is_matching_level levels m <;> simp [h]
          rw [h0]
          rw [find?_map_gen]
          have hfa : (fun (a : Nat) => decide (j + 1 ≤ a + 1)) =
              (fun a => decide (j ≤ a)) := by
            funext a; simp
          rw [hfa]
          cases (matchIn levels ms).find? (fun a => decide (j ≤ a)) <;> simp

/-- Scanning from a position finds the first match at or after it in
lexicographic order. -/
lemma scanPos_eq (levels : String) (pls : List (List Message)) :
    ∀ (pidx mi : Nat),
    scanPos levels pls pidx mi =
      (matchIdxs levels pls).find?
        (fun ij => decide (pidx < ij.1 ∨ (ij.1 = pidx ∧ mi ≤ ij.2))) := by
  induction pls with
  | nil => intro pidx mi; simp [scanPos, scanFwd, matchIdxs]
  | cons ms rest ih =>
      intro pidx mi
      match pidx with
      | 0 =>
          rw [scanPos, List.drop_zero, scanFwd]
          cases hf : findFrom levels ms mi with
          | some k =>
              rw [findFrom_eq] at hf
              rw [matchIdxs, List.find?_append, find?_map_gen, find?_map_gen]
              simp [hf]
          | none =>
              rw [findFrom_eq] at hf
              rw [matchIdxs, List.find?_append, find?_map_gen, find?_map_gen]
              have h2 := ih 0 0
              rw [scanPos, List.drop_zero] at h2
              have hmap : Option.map (fun (ij : Nat × Nat) => (0 + ij.1, ij.2))
                  (scanFwd levels rest 0) = scanFwd levels rest 0 := by
                cases scanFwd levels rest 0 <;> simp
              rw [hmap] at h2
              rw [find?_true_head _ _ (fun a _ => by
                rcases a with ⟨x, y⟩
                cases x <;> simp)] at h2
              rw [h2]
              simp [hf]
              rw [find?_true_head _ _ (fun a _ => rfl)]
              cases (matchIdxs levels rest).head? <;> simp
      | Nat.succ pidx =>
          rw [scanPos, List.drop_succ_cons]
          have h2 := ih pidx mi
          rw [scanPos] at h2
          rw [matchIdxs, List.find?_append, find?_map_gen, find?_map_gen]
          have hn : List.find? (fun a => decide (pidx.succ < ((0 : Nat), a).1 ∨
              (((0 : Nat), a).1 = pidx.succ ∧ mi ≤ ((0 : Nat), a).2)))
              (matchIn levels ms) = none :=
            List.find?_eq_none.mpr (fun x _ => by simp)
          rw [hn]
          simp only [Option.map_none, Option.none_or]
          have hcg : List.find? (fun (a : Nat × Nat) =>
              decide (pidx.succ < (a.1 + 1, a.2).1 ∨
                ((a.1 + 1, a.2).1 = pidx.succ ∧ mi ≤ (a.1 + 1, a.2).2)))
              (matchIdxs levels rest) =
              List.find? (fun ij => decide (pidx < ij.1 ∨ (ij.1 = pidx ∧ mi ≤ ij.2)))
              (matchIdxs levels rest) :=
            find?_congr_gen _ _ _ (fun a => by simp [Nat.succ_lt_succ_iff])
          rw [hcg, ← h2]
          cases scanFwd levels (List.drop pidx rest) mi with
          | none => simp
          | some v => simp [Nat.succ_add]

/-- Matching offsets in one list are strictly increasing. -/
lemma matchIn_sorted (levels : String) (ms : List Message) :
    (matchIn levels ms).Pairwise (· < ·) := by
  induction ms with
  | nil => simp [matchIn]
  | cons m ms ih =>
      rw [matchIn]
      rw [List.pairwise_append]
      refine ⟨?_, ?_, ?_⟩
      · by_cases h : is_matching_level levels m <;> simp [h]
      · rw [List.pairwise_map]
        exact ih.imp (by omega)
      · intro a ha b hb
        rcases List.mem_map.mp hb with ⟨k, _, rfl⟩
        by_cases h : is_matching_level levels m
        · simp [h] at ha
          omega
        · simp [h] at ha

/-- Matching positions are strictly increasing in lexicographic order. -/
lemma matchIdxs_sorted (levels : String) (pls : List (List Message)) :
    (matchIdxs levels pls).Pairwise idxLt := by
  induction pls with
  | nil => simp [matchIdxs]
  | cons ms rest ih =>
      rw [matchIdxs]
      rw [List.pairwise_append]
      refine ⟨?_, ?_, ?_⟩
      · rw [List.pairwise_map]
        exact (matchIn_sorted levels ms).imp (by
          intro a b hab
          exact Or.inr ⟨rfl, hab⟩)
      · rw [List.pairwise_map]
        exact ih.imp (by
          intro a b hab
          rcases hab with h | ⟨h1, h2⟩
          · exact Or.inl (by omega)
          · exact Or.inr ⟨by omega, h2⟩)
      · intro a ha b hb
        rcases List.mem_map.mp ha with ⟨j, _, rfl⟩
        rcases List.mem_map.mp hb with ⟨ij, _, rfl⟩
        exact Or.inl (by omega)

/-- In a strictly sorted list, searching for anything greater than the
`k`-th element returns the `(k+1)`-st element. -/
lemma sorted_find?_next (M : List (Nat × Nat)) (hs : M.Pairwise idxLt) :
    ∀ (k : Nat) (a : Nat × Nat), M.get? k = some a →
    M.find? (fun x => decide (idxLt a x)) = M.get? (k + 1) := by
  induction M with
  | nil => intro k a hk; cases hk
  | cons b M ih =>
      intro k a hk
      match k with
      | 0 =>
          have hb : b = a := by simpa using hk
          subst hb
          have hirr : decide (idxLt b b) = false := by
            simp [idxLt]
          rw [List.find?_cons, hirr]
          have hall : ∀ x ∈ M, idxLt b x := by
            intro x hx
            exact (List.pairwise_cons.mp hs).1 x hx
          cases M with
          | nil => rfl
          | cons c M =>
              rw [List.find?_cons]
              have hbc : decide (idxLt b c) = true := by
                simp [hall c (List.mem_cons_self c M)]
              rw [hbc]
              rfl
      | Nat.succ k =>
          have hk' : M.get? k = some a := by simpa using hk
          have hs' : M.Pairwise idxLt := (List.pairwise_cons.mp hs).2
          have hmem : a ∈ M := List.get?_mem hk'
          have hba : idxLt b a := (List.pairwise_cons.mp hs).1 a hmem
          have hnab : decide (idxLt a b) = false := by
            simp only [decide_eq_false_iff_not]
            intro hab
            rcases hab with h | ⟨h1, h2⟩ <;> rcases hba with h' | ⟨h1', h2'⟩ <;> omega
          rw [List.find?_cons, hnab]
          simpa using ih hs' k a hk'

/-- Scanning just past the `k`-th matching position yields the next one. -/
lemma scan_after (levels : String) (w : WinInfo) (k : Nat) (a : Nat × Nat)
    (hM : (matchIdxs levels (plsOf w)).get? k = some a) :
    scanPos levels (plsOf w) a.1 (a.2 + 1) =
      (matchIdxs levels (plsOf w)).get? (k + 1) := by
  rw [scanPos_eq]
  rw [find?_congr_gen _ (fun x => decide (idxLt a x)) _ (fun x => by
    apply decide_eq_decide.mpr
    unfold idxLt
    omega)]
  exact sorted_find?_next _ (matchIdxs_sorted levels (plsOf w)) k a hM

/-- Scanning from the very beginning yields the first matching position. -/
lemma scan_zero (levels : String) (pls : List (List Message)) :
    scanPos levels pls 0 0 = (matchIdxs levels pls).get? 0 := by
  rw [scanPos_eq]
  rw [find?_true_head _ _ (fun a _ => by
    rcases a with ⟨x, y⟩
    cases x <;> simp)]
  cases matchIdxs levels pls <;> rfl

/-- One advance call from a valid cursor position moves to the next
matching position when one exists. -/
lemma advance_step_mid (levels : String) (w : WinInfo) (k : Nat)
    (a b : Nat × Nat)
    (hM : (matchIdxs levels (plsOf w)).get? k = some a)
    (hb : (matchIdxs levels (plsOf w)).get? (k + 1) = some b) :
    advance_next_message levels { w with msg_index := some a } =
      (some b, { w with msg_index := some b }) := by
  have hpls : plsOf { w with msg_index := some a } = plsOf w := rfl
  rw [advance_next_message]
  simp only [hpls]
  have hscan := scan_after levels w k a hM
  rw [hscan, hb]

/-- One advance call from the last matching position wraps around to the
first matching position. -/
lemma advance_step_wrap (levels : String) (w : WinInfo) (k : Nat)
    (a m0 : Nat × Nat)
    (hM : (matchIdxs levels (plsOf w)).get? k = some a)
    (hend : (matchIdxs levels (plsOf w)).get? (k + 1) = none)
    (hm0 : (matchIdxs levels (plsOf w)).get? 0 = some m0) :
    advance_next_message levels { w with msg_index := some a } =
      (some m0, { w with msg_index := some m0 }) := by
  have hpls : plsOf { w with msg_index := some a } = plsOf w := rfl
  rw [advance_next_message]
  simp only [hpls]
  have hscan := scan_after levels w k a hM
  rw [hscan, hend, scan_zero, hm0]

/-- Running the remaining advance calls from the `k`-th matching position
yields the remaining matches followed by the wrapped-around first match. -/
lemma runAdvance_from (levels : String) (w : WinInfo) (m0 : Nat × Nat)
    (hm0 : (matchIdxs levels (plsOf w)).get? 0 = some m0) :
    ∀ (n k : Nat) (a : Nat × Nat),
    (matchIdxs levels (plsOf w)).get? k = some a →
    (matchIdxs levels (plsOf w)).length = k + 1 + n →
    (runAdvance levels { w with msg_index := some a } (n + 1)).1 =
      ((matchIdxs levels (plsOf w)).drop (k + 1)).map some ++ [some m0] := by
  intro n
  induction n with
  | zero =>
      intro k a hk hlen
      have hend : (matchIdxs levels (plsOf w)).get? (k + 1) = none :=
        List.get?_eq_none.mpr (by omega)
      have hdrop : (matchIdxs levels (plsOf w)).drop (k + 1) = [] :=
        List.drop_of_length_le (by omega)
      rw [runAdvance, runAdvance]
      rw [advance_step_wrap levels w k a m0 hk hend hm0]
      simp [hdrop]
  | succ n ih =>
      intro k a hk hlen
      cases hb : (matchIdxs levels (plsOf w)).get? (k + 1) with
      | none =>
          exfalso
          have := List.get?_eq_none.mp hb
          omega
      | some b =>
          rw [runAdvance]
          rw [advance_step_mid levels w k a b hk hb]
          have hmerge : ({ w with msg_index := some a } : WinInfo) =
              { w with msg_index := some a } := rfl
          have htail := ih (k + 1) b hb (by omega)
          simp only at htail ⊢
          rw [htail]
          have hlt : k + 1 < (matchIdxs levels (plsOf w)).length := by omega
          have hdrop : (matchIdxs levels (plsOf w)).drop (k + 1) =
              b :: (matchIdxs levels (plsOf w)).drop (k + 2) := by
            rw [List.drop_eq_getElem_cons hlt]
            congr 1
            have := List.get?_eq_getElem? (matchIdxs levels (plsOf w)) (k + 1)
            rw [this] at hb
            rw [List.getElem?_eq_getElem hlt] at hb
            simpa using hb
          rw [hdrop]
          simp

/-- C4: from the unset cursor on a session with N filter-matching entries,
N+1 successive advance calls return every matching position in flattened
order and the first one again on the (N+1)-th call; with no matching
entry, a single advance call (from any cursor) wraps around once and
returns none with the cursor reset. -/
theorem c4_navigation_wrap (levels : String) (w : WinInfo)
    (hcur : w.msg_index = none) :
    ((matchIdxs levels (plsOf w) = [] →
      ∀ cur, advance_next_message levels { w with msg_index := cur } =
        (none, { w with msg_index := none }))) ∧
    (∀ m0, (matchIdxs levels (plsOf w)).get? 0 = some m0 →
      (runAdvance levels w ((matchIdxs levels (plsOf w)).length + 1)).1 =
        (matchIdxs levels (plsOf w)).map some ++ [some m0]) := by
  constructor
  · intro hempty cur
    have hpls : plsOf { w with msg_index := cur } = plsOf w := rfl
    rw [advance_next_message]
    simp only [hpls]
    have hz : ∀ pidx mi, scanPos levels (plsOf w) pidx mi = none := by
      intro pidx mi
      rw [scanPos_eq, hempty]
      rfl
    cases cur with
    | none => simp only [hz]
    | some ij => simp only [hz]
  · intro m0 hm0
    have hstart : advance_next_message levels w =
        (some m0, { w with msg_index := some m0 }) := by
      rw [advance_next_message]
      rw [hcur]
      simp only
      rw [scan_zero, hm0]
    have hlen : 0 < (matchIdxs levels (plsOf w)).length := by
      by_contra h
      have : (matchIdxs levels (plsOf w)) = [] := by
        cases hM : matchIdxs levels (plsOf w)
        · rfl
        · rw [hM] at h; simp at h
      rw [this] at hm0
      cases hm0
    rw [runAdvance]
    rw [hstart]
    have hrest := runAdvance_from levels w m0 hm0
      ((matchIdxs levels (plsOf w)).length - 1) 0 m0 hm0 (by omega)
    have hn : (matchIdxs levels (plsOf w)).length - 1 + 1 =
        (matchIdxs levels (plsOf w)).length := by omega
    rw [hn] at hrest
    simp only [hrest]
    have hdrop : matchIdxs levels (plsOf w) =
        m0 :: (matchIdxs levels (plsOf w)).drop 1 := by
      have h0 := List.drop_eq_getElem_cons hlen (l := matchIdxs levels (plsOf w))
      rw [List.drop_zero] at h0
      rw [h0]
      congr 1
      have hq := List.get?_eq_getElem? (matchIdxs levels (plsOf w)) 0
      rw [hq] at hm0
      rw [List.getElem?_eq_getElem hlen] at hm0
      simpa using hm0
    conv_rhs => rw [hdrop]
    simp

/-- Witness for C4: two matching entries across two files; three calls
from the unset cursor return the first, the second and the first again;
with the error-only filter on an error-free session a single call returns
none. -/
theorem c4_navigation_wrap_witness :
    (runAdvance "all" exWin 3).1 = [some (0, 0), some (1, 0), some (0, 0)] ∧
    advance_next_message "error"
        { paths := [(some "b", [exWarnB])], msg_index := none } =
      (none, { paths := [(some "b", [exWarnB])], msg_index := none }) := by
  constructor
  · have h := (c4_navigation_wrap "all" exWin rfl).2 (0, 0) (by decide)
    have hlen : (matchIdxs "all" (plsOf exWin)).length = 2 := by decide
    rw [hlen] at h
    rw [h]
    decide
  · have h := (c4_navigation_wrap "error"
      { paths := [(some "b", [exWarnB])], msg_index := none } rfl).1 (by decide) none
    simpa using h

/-- C2 counterexample: a hidden primary error is still returned by
advance and still listed by the quick-panel index (neither
`_is_matching_level` nor `list_messages` consults `hidden`). -/
theorem c2_counterexample :
    (advance_next_message "all" exWinHidden).1 = some (0, 0) ∧
    (storedAt exWinHidden (some "a")).map Message.hidden = [true] ∧
    jumpTo exWinHidden = [(0, 0)] := by
  refine ⟨?_, by decide, by decide⟩
  decide

/-- Matching is insensitive to the hidden flag. -/
lemma matchIn_mapHidden (levels : String) (f : Message → Bool)
    (ms : List Message) :
    matchIn levels (ms.map (fun m => { m with hidden := f m })) =
      matchIn levels ms := by
  induction ms with
  | nil => rfl
  | cons m ms ih =>
      have hm : is_matching_level levels { m with hidden := f m } =
          is_matching_level levels m := rfl
      simp only [List.map_cons, matchIn, ih, hm]

/-- Match positions are insensitive to hidden flags. -/
lemma matchIdxs_mapHidden (levels : String) (f : Message → Bool)
    (w : WinInfo) :
    matchIdxs levels (plsOf (mapHidden f w)) = matchIdxs levels (plsOf w) := by
  have hpls : plsOf (mapHidden f w) =
      (plsOf w).map (fun ms => ms.map (fun m => { m with hidden := f m })) := by
    simp [plsOf, mapHidden]
  rw [hpls]
  generalize plsOf w = pls
  induction pls with
  | nil => rfl
  | cons ms rest ih =>
      simp only [List.map_cons, matchIdxs, ih, matchIn_mapHidden]

/-- C2 (amended): `dismiss` hides the whole tree; hidden entries remain in
storage (hiding changes no entry counts); the phantom-rendering filter
skips hidden messages; but `advance` and the quick-panel list ignore the
hidden flag entirely, so hidden entries are still returned by navigation
and listing. -/
theorem c2_hidden_entries (levels : String) :
    (∀ t : PrimaryTree, (dismissTree t).primary.hidden = true ∧
      ((dismissTree t).children.all (fun c => c.hidden)) = true) ∧
    (∀ (w : WinInfo) (f : Message → Bool),
      (advance_next_message levels (mapHidden f w)).1 =
        (advance_next_message levels w).1) ∧
    (∀ (w : WinInfo) (f : Message → Bool),
      jumpTo (mapHidden f w) = jumpTo w) ∧
    (∀ (w : WinInfo) (f : Message → Bool),
      entryCount (mapHidden f w) = entryCount w) ∧
    (∀ m : Message, m.hidden = true → show_phantom_visible m = false) := by
  refine ⟨?_, ?_, ?_, ?_, ?_⟩
  · intro t
    constructor
    · rfl
    · simp [dismissTree]
  · intro w f
    have hmi : (mapHidden f w).msg_index = w.msg_index := rfl
    rw [advance_next_message, advance_next_message]
    simp only [hmi]
    have hscan : ∀ pidx mi, scanPos levels (plsOf (mapHidden f w)) pidx mi =
        scanPos levels (plsOf w) pidx mi := by
      intro pidx mi
      rw [scanPos_eq, scanPos_eq, matchIdxs_mapHidden]
    cases w.msg_index with
    | none =>
        simp only [hscan]
        cases scanPos levels (plsOf w) 0 0 <;> simp
    | some ij =>
        simp only [hscan]
        cases scanPos levels (plsOf w) ij.1 (ij.2 + 1) with
        | some v => simp
        | none => cases scanPos levels (plsOf w) 0 0 <;> simp
  · intro w f
    unfold jumpTo
    rw [matchIdxs_mapHidden]
  · intro w f
    unfold entryCount mapHidden
    simp only [List.map_map]
    congr 1
    apply List.map_congr_left
    intro e _
    simp
  · intro m h
    simp [show_phantom_visible, h]

/-- Witness for C2 (amended): a hidden message is invisible to the
phantom filter, and hiding everything in the example session changes
neither navigation nor the stored counts. -/
theorem c2_hidden_entries_witness :
    show_phantom_visible { exErrA with hidden := true } = false ∧
    (advance_next_message "all" (mapHidden (fun _ => true) exWin)).1 =
      (advance_next_message "all" exWin).1 ∧
    entryCount (mapHidden (fun _ => true) exWin) = entryCount exWin := by
  have h := c2_hidden_entries "all"
  exact ⟨h.2.2.2.2 { exErrA with hidden := true } rfl,
    h.2.1 exWin (fun _ => true), h.2.2.2.1 exWin (fun _ => true)⟩

/-- A record with no spans and no children reduces to the zero-span
branch when the hide-warnings policy is off. -/
lemma collect_no_spans (cfg : Cfg) (dmsg dlevel : String) (dc : Option DCode)
    (st : CState) (pinfo : Option JSpan) (hw : cfg.hide_warnings = false) :
    collect cfg (Diag.mk dmsg dlevel dc [] []) pinfo st =
      (zeroSpans cfg dmsg dlevel dc st pinfo).1 := by
  rw [collect]
  simp [hw, collectList]

/-- C8: a top-level record with zero spans is dropped silently when its
text matches the denylist; otherwise with a known target path it becomes
the primary entry anchored there with no region and is stored; otherwise
it is delivered only through the side-channel callback and never stored.
(`rust_syntax_hide_warnings` is at its default `False`.) -/
theorem c8_no_span_handling (cfg : Cfg) (w : WinInfo) (dmsg dlevel : String)
    (dc : Option DCode) (hw : cfg.hide_warnings = false) :
    ((strBegins dmsg "aborting due to" || strBegins dmsg "cannot continue") = true →
      add_rust_messages cfg w (Diag.mk dmsg dlevel dc [] []) = (w, [])) ∧
    ((strBegins dmsg "aborting due to" || strBegins dmsg "cannot continue") = false →
      ∀ tp, cfg.target_path = some tp → strBegins tp "/" = true →
        containsMacros tp = false →
        (collect cfg (Diag.mk dmsg dlevel dc [] []) none freshC).msg =
          { path := some tp, span := none, text := some dmsg,
            level := some dlevel,
            code := if codeTruthy dc then dc.map DCode.code else none } ∧
        add_rust_messages cfg { paths := [], msg_index := none }
            (Diag.mk dmsg dlevel dc [] []) =
          ({ paths := [(some tp,
              [{ path := some tp, span := none, text := some dmsg,
                 level := some dlevel,
                 code := if codeTruthy dc then dc.map DCode.code else none,
                 region_key := some 1 }])], msg_index := none }, [])) ∧
    ((strBegins dmsg "aborting due to" || strBegins dmsg "cannot continue") = false →
      cfg.target_path = none → cfg.has_cb = true →
      add_rust_messages cfg w (Diag.mk dmsg dlevel dc [] []) =
        (w, [{ level := some dlevel, text := some dmsg }])) := by
  refine ⟨?_, ?_, ?_⟩
  · intro hdeny
    rw [add_rust_messages, collect_no_spans cfg dmsg dlevel dc freshC none hw]
    rw [zeroSpans]
    simp [hdeny, freshC]
  · intro hdeny tp htp habs hmac
    have hmsg : (collect cfg (Diag.mk dmsg dlevel dc [] []) none freshC).msg =
        { path := some tp, span := none, text := some dmsg,
          level := some dlevel,
          code := if codeTruthy dc then dc.map DCode.code else none } := by
      rw [collect_no_spans cfg dmsg dlevel dc freshC none hw, zeroSpans]
      simp only [hdeny, Bool.false_eq_true, if_false, htp]
      rw [set_primary_message]
      by_cases hct : codeTruthy dc <;>
        simp [hct, freshC, make_span_path, joinPath, habs, make_span_region,
          JSpan.core]
    refine ⟨hmsg, ?_⟩
    rw [add_rust_messages]
    simp only [hmsg]
    rw [collect_no_spans cfg dmsg dlevel dc freshC none hw, zeroSpans]
    simp only [hdeny, Bool.false_eq_true, if_false, htp]
    rw [set_primary_message]
    have hch : (if codeTruthy dc then
        { freshC.msg with code := dc.map DCode.code } else freshC.msg).path = none := by
      by_cases hct : codeTruthy dc <;> simp [hct, freshC]
    by_cases hct : codeTruthy dc <;>
      · simp only [hct, if_true, if_false, Bool.false_eq_true]
        simp [freshC, make_span_path, joinPath, habs, make_span_region, JSpan.core,
          create_cross_links, clGo, linksOf, insertTree, treeMsgs, add_messages,
          add_message, hmac, storedAt, lookupPath, storeAppend, putAppend,
          entryCount, hct]
  · intro hdeny htp hcb
    rw [add_rust_messages]
    rw [collect_no_spans cfg dmsg dlevel dc freshC none hw, zeroSpans]
    simp [hdeny, htp, hcb, freshC]

/-- Witness for C8: a denylist message is dropped; a plain zero-span
message is anchored at the target path and stored. -/
theorem c8_no_span_handling_witness :
    add_rust_messages exCfg { paths := [], msg_index := none }
        (Diag.mk "aborting due to 2 previous errors" "error" none [] []) =
      ({ paths := [], msg_index := none }, []) ∧
    add_rust_messages exCfg { paths := [], msg_index := none }
        (Diag.mk "value moved here" "error" none [] []) =
      ({ paths := [(some "/proj/main.rs",
          [{ path := some "/proj/main.rs", span := none,
             text := some "value moved here", level := some "error",
             code := none, region_key := some 1 }])], msg_index := none }, []) := by
  have h1 := c8_no_span_handling exCfg { paths := [], msg_index := none }
    "aborting due to 2 previous errors" "error" none rfl
  have h2 := c8_no_span_handling exCfg { paths := [], msg_index := none }
    "value moved here" "error" none rfl
  exact ⟨h1.1 (by decide),
    (h2.2.1 (by decide) "/proj/main.rs" rfl (by decide) (by decide)).2⟩

/-- A plain file name skips the macro block. -/
lemma macroStage_plain (cfg : Cfg) (dlevel : String) (st : CState) (s : JSpan)
    (h1 : containsMacros s.core.file_name = false) :
    macroStage cfg dlevel st s = (st, s) := by
  simp [macroStage, h1]

/-- A span without expansion skips the invocation-site block. -/
lemma invokeStage_plain (cfg : Cfg) (st : CState) (s : JSpan)
    (h2 : s.expn = none) : invokeStage cfg st s = st := by
  rw [invokeStage, h2]

/-- A span without truthy replacement skips the replacement block. -/
lemma suggStage_plain (cfg : Cfg) (st : CState) (s : JSpan)
    (h3 : suggTruthy s.core.suggested_replacement = false) :
    suggStage cfg st s = st := by
  simp [suggStage, h3]

/-- Reduction of the span-loop body on a plain span (no macro file name,
no expansion chain, no truthy replacement): only the primary branch and
the label branch act. -/
lemma processSpan_plain (cfg : Cfg) (dmsg dlevel : String) (dc : Option DCode)
    (st : CState) (pinfo : Option JSpan) (s : JSpan)
    (h1 : containsMacros s.core.file_name = false) (h2 : s.expn = none)
    (h3 : suggTruthy s.core.suggested_replacement = false) :
    processSpan cfg dmsg dlevel dc (st, pinfo) s =
      (labelStage cfg dlevel (primaryStage cfg dmsg dlevel dc st pinfo s).1 s,
       (primaryStage cfg dmsg dlevel dc st pinfo s).2) := by
  rw [processSpan]
  simp only [macroStage_plain cfg dlevel st s h1]
  rw [invokeStage_plain cfg st s h2]
  rw [suggStage_plain cfg _ s h3]

/-- C9 (amended): for a plain span on a top-level record, a label child
carrying the span's label text at the span's location with the record's
severity is emitted exactly when the label is non-null; a null label
emits nothing.  Empty labels and labels equal to the main message are
included. -/
theorem c9_label_child (cfg : Cfg) (dmsg dlevel : String) (dc : Option DCode)
    (s : JSpan) (hw : cfg.hide_warnings = false)
    (h1 : containsMacros s.core.file_name = false) (h2 : s.expn = none)
    (h3 : suggTruthy s.core.suggested_replacement = false) :
    (collect cfg (Diag.mk dmsg dlevel dc [s] []) none freshC).children =
      (match s.core.label with
       | some lb => [labelChildOf cfg dlevel s lb]
       | none => []) := by
  rw [collect]
  simp only [hw, Bool.and_false, Bool.false_and, Bool.false_eq_true, if_false,
    List.isEmpty_cons, List.foldl_cons, List.foldl_nil]
  rw [processSpan_plain cfg dmsg dlevel dc freshC none s h1 h2 h3]
  rw [collectList]
  unfold primaryStage labelStage
  by_cases hp : s.core.is_primary
  · cases hl : s.core.label <;>
      simp [hp, hl, freshC, set_primary_message, add_additional, labelChildOf,
        codeTruthy]
  · cases hl : s.core.label <;>
      simp [hp, hl, freshC, add_additional, labelChildOf]

/-- C9 counterexample: a span whose label is the empty string (so not a
non-empty label) still produces a label child carrying the empty text,
because the source only checks `label is not None`. -/
theorem c9_counterexample :
    (collect exCfg exDiagEmptyLabel none freshC).children.map Message.text =
      [some ""] := by
  decide

/-- Witness for C9: a null-label primary span yields no children, while
an empty-string label yields exactly one label child. -/
theorem c9_label_child_witness :
    (collect exCfg (Diag.mk "mismatched types" "error" none
        [exSpan 10 true none] []) none freshC).children = [] ∧
    (collect exCfg exDiagEmptyLabel none freshC).children =
      [labelChildOf exCfg "error" (exSpan 10 true (some "")) ""] := by
  constructor
  · rw [c9_label_child exCfg "mismatched types" "error" none (exSpan 10 true none)
      rfl (by decide) rfl rfl]
    rfl
  · rw [show exDiagEmptyLabel = Diag.mk "mismatched types" "error" none
        [exSpan 10 true (some "")] [] from rfl]
    rw [c9_label_child exCfg "mismatched types" "error" none
      (exSpan 10 true (some "")) rfl (by decide) rfl rfl]
    rfl

/-- `cext` is reflexive. -/
lemma cext_refl (a : CState) : cext a a :=
  ⟨rfl, rfl, List.prefix_refl _⟩

/-- `cext` is transitive. -/
lemma cext_trans {a b c : CState} (h1 : cext a b) (h2 : cext b c) : cext a c :=
  ⟨h2.1.trans h1.1, h2.2.1.trans h1.2.1, h1.2.2.trans h2.2.2⟩

/-- `add_additional` only appends a child. -/
lemma cext_add_additional (cfg : Cfg) (s : JSpan) (t : Option String)
    (l : String) (st : CState) : cext st (add_additional cfg s t l st).1 :=
  ⟨rfl, rfl, List.prefix_append _ _⟩

/-- The macro block only appends children. -/
lemma cext_macroStage (cfg : Cfg) (dlevel : String) (st : CState) (s : JSpan) :
    cext st (macroStage cfg dlevel st s).1 := by
  rw [macroStage]
  by_cases hm : containsMacros s.core.file_name
  · simp only [hm, if_true]
    by_cases hm2 : containsMacros (withFlags (findSpanR s none).1 s).core.file_name
    · simp only [hm2, if_true]
      cases htp : cfg.target_path <;>
        · simp only [htp]
          exact cext_trans (cext_add_additional _ _ _ _ _) (cext_add_additional _ _ _ _ _)
    · simp only [hm2, Bool.false_eq_true, if_false]
      split
      · exact cext_add_additional _ _ _ _ _
      · exact cext_refl st
  · simp only [hm, Bool.false_eq_true, if_false]
    exact cext_refl st

/-- The invocation-site block only appends children. -/
lemma cext_invokeStage (cfg : Cfg) (st : CState) (s : JSpan) :
    cext st (invokeStage cfg st s) := by
  rw [invokeStage]
  cases hexp : s.expn with
  | none => exact cext_refl st
  | some e =>
      obtain ⟨a, dn, b⟩ := e
      by_cases hc : (!containsMacros s.core.file_name && !strBegins dn "#[") = true
      · simp only [hc, if_true]
        exact cext_add_additional _ _ _ _ _
      · simp only [Bool.not_eq_true] at hc
        simp only [hc, Bool.false_eq_true, if_false]
        exact cext_refl st

/-- With the parent span already set, the primary block keeps it and only
appends a child. -/
lemma primaryStage_some (cfg : Cfg) (dmsg dlevel : String) (dc : Option DCode)
    (st : CState) (ps : JSpan) (s : JSpan) :
    (primaryStage cfg dmsg dlevel dc st (some ps) s).2 = some ps ∧
    cext st (primaryStage cfg dmsg dlevel dc st (some ps) s).1 := by
  constructor
  · by_cases hp : s.core.is_primary <;> simp [primaryStage, hp]
  · rw [primaryStage]
    by_cases hp : s.core.is_primary
    · simp only [hp, if_true]
      exact cext_add_additional _ _ _ _ _
    · simp only [hp, Bool.false_eq_true, if_false]
      exact cext_refl st

/-- The label block only appends children. -/
lemma cext_labelStage (cfg : Cfg) (dlevel : String) (st : CState) (s : JSpan) :
    cext st (labelStage cfg dlevel st s) := by
  rw [labelStage]
  cases hl : s.core.label with
  | none => exact cext_refl st
  | some lb => exact cext_add_additional _ _ _ _ _

/-- The replacement block only appends children. -/
lemma cext_suggStage (cfg : Cfg) (st : CState) (s : JSpan) :
    cext st (suggStage cfg st s) := by
  rw [suggStage]
  split
  · refine ⟨rfl, rfl, ?_⟩
    simp only [add_additional, List.dropLast_concat]
    exact List.prefix_append _ _
  · exact cext_refl st

/-- The span-loop body keeps `parent_info` and the primary message intact
when the parent span is already set, and only appends children. -/
lemma processSpan_pinfo_some (cfg : Cfg) (dmsg dlevel : String)
    (dc : Option DCode) (st : CState) (ps : JSpan) (s : JSpan) :
    (processSpan cfg dmsg dlevel dc (st, some ps) s).2 = some ps ∧
    cext st (processSpan cfg dmsg dlevel dc (st, some ps) s).1 := by
  rw [processSpan]
  refine ⟨(primaryStage_some cfg dmsg dlevel dc _ ps _).1, ?_⟩
  exact cext_trans (cext_macroStage cfg dlevel st s)
    (cext_trans (cext_invokeStage cfg _ _)
      (cext_trans (primaryStage_some cfg dmsg dlevel dc _ ps _).2
        (cext_trans (cext_labelStage cfg dlevel _ _) (cext_suggStage cfg _ _))))

/-- The whole span loop keeps `parent_info` and the primary message when
the parent span is already set. -/
lemma foldl_processSpan_some (cfg : Cfg) (dmsg dlevel : String)
    (dc : Option DCode) (spans : List JSpan) :
    ∀ (st : CState) (ps : JSpan),
    (spans.foldl (processSpan cfg dmsg dlevel dc) (st, some ps)).2 = some ps ∧
    cext st (spans.foldl (processSpan cfg dmsg dlevel dc) (st, some ps)).1 := by
  induction spans with
  | nil => intro st ps; exact ⟨rfl, cext_refl st⟩
  | cons s spans ih =>
      intro st ps
      rw [List.foldl_cons]
      have h := processSpan_pinfo_some cfg dmsg dlevel dc st ps s
      have hpair : processSpan cfg dmsg dlevel dc (st, some ps) s =
          ((processSpan cfg dmsg dlevel dc (st, some ps) s).1, some ps) :=
        Prod.ext rfl h.1
      rw [hpair]
      exact ⟨(ih _ ps).1, cext_trans h.2 (ih _ ps).2⟩

mutual

/-- A record processed with the parent span already set never touches the
primary message or the callback list; it only appends children. -/
lemma collect_some (cfg : Cfg) (d : Diag) (ps : JSpan) (st : CState) :
    cext st (collect cfg d (some ps) st) := by
  match d with
  | .mk dmsg dlevel dcode dspans dchildren =>
    rw [collect]
    simp only [Option.isNone_some, Bool.and_false, Bool.false_eq_true, if_false]
    by_cases he : dspans.isEmpty
    · simp only [he, if_true]
      have hz : zeroSpans cfg dmsg dlevel dcode st (some ps) =
          ((add_additional cfg ps (some dmsg) dlevel st).1, some ps) := rfl
      rw [hz]
      have h1 := foldl_processSpan_some cfg dmsg dlevel dcode dspans
        (add_additional cfg ps (some dmsg) dlevel st).1 ps
      have hpair : dspans.foldl (processSpan cfg dmsg dlevel dcode)
          ((add_additional cfg ps (some dmsg) dlevel st).1, some ps) =
          ((dspans.foldl (processSpan cfg dmsg dlevel dcode)
            ((add_additional cfg ps (some dmsg) dlevel st).1, some ps)).1, some ps) :=
        Prod.ext rfl h1.1
      rw [hpair]
      exact cext_trans (cext_add_additional _ _ _ _ _)
        (cext_trans h1.2 (collectList_some cfg dchildren ps _))
    · simp only [he, Bool.false_eq_true, if_false]
      have h1 := foldl_processSpan_some cfg dmsg dlevel dcode dspans st ps
      have hpair : dspans.foldl (processSpan cfg dmsg dlevel dcode) (st, some ps) =
          ((dspans.foldl (processSpan cfg dmsg dlevel dcode) (st, some ps)).1, some ps) :=
        Prod.ext rfl h1.1
      rw [hpair]
      exact cext_trans h1.2 (collectList_some cfg dchildren ps _)

/-- Child records processed with the parent span set only append
children. -/
lemma collectList_some (cfg : Cfg) (ds : List Diag) (ps : JSpan) (st : CState) :
    cext st (collectList cfg ds (some ps) st) := by
  match ds with
  | [] => rw [collectList]; exact cext_refl st
  | d :: rest =>
      rw [collectList]
      exact cext_trans (collect_some cfg d ps st) (collectList_some cfg rest ps _)

end

/-- Splitting a `plainSpan` hypothesis. -/
lemma plainSpan_split (s : JSpan) (h : plainSpan s = true) :
    containsMacros s.core.file_name = false ∧ s.expn = none := by
  have h2 := h
  simp only [plainSpan, Bool.and_eq_true, Bool.not_eq_true', Option.isNone_iff_eq_none] at h2
  exact h2

/-- A plain non-primary span keeps `parent_info` unset and the message
untouched; it only appends children. -/
lemma processSpan_plain_nonprimary (cfg : Cfg) (dmsg dlevel : String)
    (dc : Option DCode) (st : CState) (s : JSpan)
    (hs : plainSpan s = true) (hp : s.core.is_primary = false) :
    (processSpan cfg dmsg dlevel dc (st, none) s).2 = none ∧
    cext st (processSpan cfg dmsg dlevel dc (st, none) s).1 := by
  obtain ⟨h1, h2⟩ := plainSpan_split s hs
  rw [processSpan]
  simp only [macroStage_plain cfg dlevel st s h1]
  rw [invokeStage_plain cfg st s h2]
  have hpm : primaryStage cfg dmsg dlevel dc st none s = (st, none) := by
    rw [primaryStage]
    simp [hp]
  rw [hpm]
  exact ⟨rfl, cext_trans (cext_labelStage cfg dlevel st s) (cext_suggStage cfg _ s)⟩

/-- A run of plain non-primary spans from an unset parent leaves the
parent unset and the message untouched. -/
lemma foldl_pre_phase (cfg : Cfg) (dmsg dlevel : String) (dc : Option DCode) :
    ∀ (pre : List JSpan) (st : CState),
    (∀ s ∈ pre, plainSpan s = true ∧ s.core.is_primary = false) →
    (pre.foldl (processSpan cfg dmsg dlevel dc) (st, none)).2 = none ∧
    cext st (pre.foldl (processSpan cfg dmsg dlevel dc) (st, none)).1 := by
  intro pre
  induction pre with
  | nil => intro st hh; exact ⟨rfl, cext_refl st⟩
  | cons s pre ih =>
      intro st hh
      rw [List.foldl_cons]
      have hs := hh s (List.mem_cons_self s pre)
      have h := processSpan_plain_nonprimary cfg dmsg dlevel dc st s hs.1 hs.2
      have hpair : processSpan cfg dmsg dlevel dc (st, none) s =
          ((processSpan cfg dmsg dlevel dc (st, none) s).1, none) :=
        Prod.ext rfl h.1
      rw [hpair]
      have hrest := ih (processSpan cfg dmsg dlevel dc (st, none) s).1
        (fun x hx => hh x (List.mem_cons_of_mem s hx))
      exact ⟨hrest.1, cext_trans h.2 hrest.2⟩

/-- The first primary span: `set_primary_message` fills the message and
sets `parent_info` to this span. -/
lemma processSpan_first_primary (cfg : Cfg) (dmsg dlevel : String)
    (dc : Option DCode) (st : CState) (s : JSpan)
    (hs : plainSpan s = true) (hp : s.core.is_primary = true)
    (hpath : st.msg.path = none) :
    (processSpan cfg dmsg dlevel dc (st, none) s).2 = some s ∧
    (processSpan cfg dmsg dlevel dc (st, none) s).1.msg =
      { (if codeTruthy dc then { st.msg with code := dc.map DCode.code }
         else st.msg) with
        path := some (make_span_path cfg s.core.file_name),
        span := make_span_region s,
        text := some dmsg,
        level := some dlevel } := by
  obtain ⟨h1, h2⟩ := plainSpan_split s hs
  rw [processSpan]
  simp only [macroStage_plain cfg dlevel st s h1]
  rw [invokeStage_plain cfg st s h2]
  have hpm : primaryStage cfg dmsg dlevel dc st none s =
      set_primary_message cfg dlevel dc s dmsg st := by
    rw [primaryStage]
    simp [hp, hpath]
  rw [hpm]
  have hset : set_primary_message cfg dlevel dc s dmsg st =
      ({ st with msg :=
        { (if codeTruthy dc then { st.msg with code := dc.map DCode.code }
           else st.msg) with
          path := some (make_span_path cfg s.core.file_name),
          span := make_span_region s,
          text := some dmsg,
          level := some dlevel } }, some s) := rfl
  rw [hset]
  have hlab := cext_labelStage cfg dlevel
    ({ st with msg :=
      { (if codeTruthy dc then { st.msg with code := dc.map DCode.code }
         else st.msg) with
        path := some (make_span_path cfg s.core.file_name),
        span := make_span_region s,
        text := some dmsg,
        level := some dlevel } }) s
  have hsug := cext_suggStage cfg (labelStage cfg dlevel
    ({ st with msg :=
      { (if codeTruthy dc then { st.msg with code := dc.map DCode.code }
         else st.msg) with
        path := some (make_span_path cfg s.core.file_name),
        span := make_span_region s,
        text := some dmsg,
        level := some dlevel } }) s) s
  exact ⟨rfl, hsug.1.trans hlab.1⟩

/-- A plain primary span processed after the primary message is set folds
the main message into a child entry. -/
lemma processSpan_post_mem (cfg : Cfg) (dmsg dlevel : String)
    (dc : Option DCode) (st : CState) (ps : JSpan) (s : JSpan)
    (hs : plainSpan s = true) (hp : s.core.is_primary = true) :
    foldChildOf cfg dmsg dlevel s ∈
      (processSpan cfg dmsg dlevel dc (st, some ps) s).1.children := by
  obtain ⟨h1, h2⟩ := plainSpan_split s hs
  rw [processSpan]
  simp only [macroStage_plain cfg dlevel st s h1]
  rw [invokeStage_plain cfg st s h2]
  have hpm : primaryStage cfg dmsg dlevel dc st (some ps) s =
      ((add_additional cfg s (some dmsg) dlevel st).1, some ps) := by
    rw [primaryStage]
    simp [hp]
  rw [hpm]
  have hmem : foldChildOf cfg dmsg dlevel s ∈
      (add_additional cfg s (some dmsg) dlevel st).1.children := by
    simp [add_additional, foldChildOf]
  have hlab := cext_labelStage cfg dlevel (add_additional cfg s (some dmsg) dlevel st).1 s
  have hsug := cext_suggStage cfg
    (labelStage cfg dlevel (add_additional cfg s (some dmsg) dlevel st).1 s) s
  exact hsug.2.2.subset (hlab.2.2.subset hmem)

/-- Every plain primary span of the tail run contributes its fold child. -/
lemma foldl_post_mem (cfg : Cfg) (dmsg dlevel : String) (dc : Option DCode) :
    ∀ (post : List JSpan) (st : CState) (ps : JSpan) (s : JSpan),
    s ∈ post → plainSpan s = true → s.core.is_primary = true →
    foldChildOf cfg dmsg dlevel s ∈
      (post.foldl (processSpan cfg dmsg dlevel dc) (st, some ps)).1.children := by
  intro post
  induction post with
  | nil => intro st ps s hmem; cases hmem
  | cons x post ih =>
      intro st ps s hmem hplain hprim
      rw [List.foldl_cons]
      have hx := processSpan_pinfo_some cfg dmsg dlevel dc st ps x
      have hpair : processSpan cfg dmsg dlevel dc (st, some ps) x =
          ((processSpan cfg dmsg dlevel dc (st, some ps) x).1, some ps) :=
        Prod.ext rfl hx.1
      rcases List.mem_cons.mp hmem with rfl | hmem
      · rw [hpair]
        have hbase := processSpan_post_mem cfg dmsg dlevel dc st ps s hplain hprim
        have hrest := foldl_processSpan_some cfg dmsg dlevel dc post
          (processSpan cfg dmsg dlevel dc (st, some ps) s).1 ps
        exact hrest.2.2.2.subset hbase
      · rw [hpair]
        exact ih _ ps s hmem hplain hprim

/-- C1: on a top-level record whose spans are plain, the first primary
span (after any non-primary spans) becomes the primary entry with its
path, region, the record's message text and severity; every subsequent
primary span is folded into an additional child entry carrying the
record's main message at that span's location. -/
theorem c1_multi_primary_fold (cfg : Cfg) (dmsg dlevel : String)
    (dc : Option DCode) (dchildren : List Diag) (pre post : List JSpan)
    (s1 : JSpan) (hw : cfg.hide_warnings = false)
    (hpre : ∀ s ∈ pre, s.core.is_primary = false)
    (hplain : ∀ s ∈ pre ++ s1 :: post, plainSpan s = true)
    (hs1 : s1.core.is_primary = true) :
    (collect cfg (Diag.mk dmsg dlevel dc (pre ++ s1 :: post) dchildren)
        none freshC).msg.path = some (make_span_path cfg s1.core.file_name) ∧
    (collect cfg (Diag.mk dmsg dlevel dc (pre ++ s1 :: post) dchildren)
        none freshC).msg.span = make_span_region s1 ∧
    (collect cfg (Diag.mk dmsg dlevel dc (pre ++ s1 :: post) dchildren)
        none freshC).msg.text = some dmsg ∧
    (collect cfg (Diag.mk dmsg dlevel dc (pre ++ s1 :: post) dchildren)
        none freshC).msg.level = some dlevel ∧
    (∀ s ∈ post, s.core.is_primary = true →
      foldChildOf cfg dmsg dlevel s ∈
        (collect cfg (Diag.mk dmsg dlevel dc (pre ++ s1 :: post) dchildren)
          none freshC).children) := by
  rw [collect]
  simp only [hw, Bool.and_false, Bool.false_and, Bool.false_eq_true, if_false]
  have hne : (pre ++ s1 :: post).isEmpty = false := by
    cases pre <;> simp
  rw [hne]
  simp only [Bool.false_eq_true, if_false, List.foldl_append, List.foldl_cons]
  have hpreH := foldl_pre_phase cfg dmsg dlevel dc pre freshC
    (fun s hsp => ⟨hplain s (List.mem_append_left _ hsp), hpre s hsp⟩)
  set stA := (pre.foldl (processSpan cfg dmsg dlevel dc) (freshC, none)).1 with hstA
  have haccA : pre.foldl (processSpan cfg dmsg dlevel dc) (freshC, none) =
      (stA, none) := Prod.ext rfl hpreH.1
  rw [haccA]
  have hApath : stA.msg.path = none := by
    have := hpreH.2.1
    rw [this]
    rfl
  have hB := processSpan_first_primary cfg dmsg dlevel dc stA s1
    (hplain s1 (List.mem_append_right _ (List.mem_cons_self s1 post))) hs1 hApath
  set stB := (processSpan cfg dmsg dlevel dc (stA, none) s1).1 with hstB
  have haccB : processSpan cfg dmsg dlevel dc (stA, none) s1 = (stB, some s1) :=
    Prod.ext rfl hB.1
  rw [haccB]
  have hC := foldl_processSpan_some cfg dmsg dlevel dc post stB s1
  set stC := (post.foldl (processSpan cfg dmsg dlevel dc) (stB, some s1)).1 with hstC
  have haccC : post.foldl (processSpan cfg dmsg dlevel dc) (stB, some s1) =
      (stC, some s1) := Prod.ext rfl hC.1
  rw [haccC]
  have hD := collectList_some cfg dchildren s1 stC
  have hmsg : (collectList cfg dchildren (some s1) stC).msg = stB.msg := by
    rw [hD.1, hC.2.1]
  have hmsgA : stA.msg = freshC.msg := hpreH.2.1
  have hmsgB := hB.2
  rw [hmsgA] at hmsgB
  refine ⟨?_, ?_, ?_, ?_, ?_⟩
  · rw [hmsg, hmsgB]
  · rw [hmsg, hmsgB]
  · rw [hmsg, hmsgB]
  · rw [hmsg, hmsgB]
  · intro s hsp hsprim
    have hmem := foldl_post_mem cfg dmsg dlevel dc post stB s1 s hsp
      (hplain s (List.mem_append_right _ (List.mem_cons_of_mem s1 hsp))) hsprim
    rw [← hstC] at hmem
    exact hD.2.2.subset hmem

/-- Witness for C1: the two-primary-span record folds the second span
into a child carrying the main message. -/
theorem c1_multi_primary_fold_witness :
    (collect exCfg exDiagTwoPrimary none freshC).msg.path =
      some (make_span_path exCfg "src/main.rs") ∧
    foldChildOf exCfg "two borrows" "error" (exSpan 20 true none) ∈
      (collect exCfg exDiagTwoPrimary none freshC).children := by
  have h := c1_multi_primary_fold exCfg "two borrows" "error" none []
    [] [exSpan 20 true none] (exSpan 10 true none) rfl
    (fun s hs => absurd hs (List.not_mem_nil s))
    (fun s hs => by
      rcases List.mem_cons.mp hs with rfl | hs
      · decide
      · rcases List.mem_cons.mp hs with rfl | hs
        · decide
        · exact absurd hs (List.not_mem_nil s))
    rfl
  exact ⟨h.1, h.2.2.2.2 (exSpan 20 true none) (List.mem_cons_self _ _) rfl⟩

/-- `optStrLt` agrees with `pathLt`. -/
lemma optStrLt_iff (x y : Option String) : keyLe.optStrLt x y = true ↔ pathLt x y := by
  cases x <;> cases y <;> simp [keyLe.optStrLt, pathLt]

/-- The Boolean key comparison expresses `keyLeP`. -/
lemma itemLe_iff (a b : SortItem) : itemLe a b ↔ keyLeP (itemKey a) (itemKey b) := by
  simp [itemLe, keyLe, keyLeP, optStrLt_iff, Bool.or_eq_true, Bool.and_eq_true,
    decide_eq_true_eq]

/-- `pathLt` is irreflexive. -/
lemma pathLt_irrefl (p : Option String) : ¬ pathLt p p := by
  cases p <;> simp [pathLt]

/-- `pathLt` is asymmetric. -/
lemma pathLt_asymm : ∀ {p q : Option String}, pathLt p q → ¬ pathLt q p
  | none, none, h => h.elim
  | none, some _, _ => fun h2 => h2.elim
  | some _, none, h => h.elim
  | some a, some b, h => fun h2 => absurd h (lt_asymm h2)

/-- `pathLt` is transitive. -/
lemma pathLt_trans : ∀ {p q r : Option String}, pathLt p q → pathLt q r → pathLt p r
  | none, none, _, h1, _ => h1.elim
  | none, some _, none, _, h2 => h2.elim
  | none, some _, some _, _, _ => True.intro
  | some _, none, _, h1, _ => h1.elim
  | some _, some _, none, _, h2 => h2.elim
  | some _, some _, some _, h1, h2 => lt_trans h1 h2

/-- `pathLt` trichotomy. -/
lemma pathLt_total (p q : Option String) : pathLt p q ∨ p = q ∨ pathLt q p := by
  cases p <;> cases q
  · exact Or.inr (Or.inl rfl)
  · exact Or.inl True.intro
  · exact Or.inr (Or.inr True.intro)
  · rename_i a b
    rcases lt_trichotomy a b with h | h | h
    · exact Or.inl h
    · exact Or.inr (Or.inl (by rw [h]))
    · exact Or.inr (Or.inr h)

/-- The key order is antisymmetric on keys. -/
lemma keyLeP_antisymm {a b : Nat × Option String × Nat}
    (h1 : keyLeP a b) (h2 : keyLeP b a) : a = b := by
  obtain ⟨a1, a2, a3⟩ := a
  obtain ⟨b1, b2, b3⟩ := b
  simp only [keyLeP] at h1 h2
  rcases h1 with h1 | ⟨e1, h1⟩
  · rcases h2 with h2 | ⟨e2, h2⟩
    · omega
    · omega
  · rcases h2 with h2 | ⟨e2, h2⟩
    · omega
    · rcases h1 with hp1 | ⟨pe1, hn1⟩
      · rcases h2 with hp2 | ⟨pe2, hn2⟩
        · exact absurd hp2 (pathLt_asymm hp1)
        · subst pe2
          exact absurd hp1 (pathLt_irrefl _)
      · rcases h2 with hp2 | ⟨pe2, hn2⟩
        · subst pe1
          exact absurd hp2 (pathLt_irrefl _)
        · subst pe1
          have h3 : a3 = b3 := Nat.le_antisymm hn1 hn2
          subst h3
          rw [e1]

/-- Items with equal keys compare both ways. -/
lemma itemLe_of_key_eq {a b : SortItem} (h : itemKey a = itemKey b) : itemLe a b := by
  rw [itemLe_iff, h]
  exact Or.inr ⟨rfl, Or.inr ⟨rfl, le_refl _⟩⟩

/-- Key comparison is total. -/
lemma keyLeP_total (a b : Nat × Option String × Nat) : keyLeP a b ∨ keyLeP b a := by
  obtain ⟨a1, a2, a3⟩ := a
  obtain ⟨b1, b2, b3⟩ := b
  simp only [keyLeP]
  rcases Nat.lt_trichotomy a1 b1 with h | h | h
  · exact Or.inl (Or.inl h)
  · rcases pathLt_total a2 b2 with hp | hp | hp
    · exact Or.inl (Or.inr ⟨h, Or.inl hp⟩)
    · rcases Nat.le_total a3 b3 with hn | hn
      · exact Or.inl (Or.inr ⟨h, Or.inr ⟨hp, hn⟩⟩)
      · exact Or.inr (Or.inr ⟨h.symm, Or.inr ⟨hp.symm, hn⟩⟩)
    · exact Or.inr (Or.inr ⟨h.symm, Or.inl hp⟩)
  · exact Or.inr (Or.inl h)

/-- Key comparison is transitive. -/
lemma keyLeP_trans {a b c : Nat × Option String × Nat}
    (h1 : keyLeP a b) (h2 : keyLeP b c) : keyLeP a c := by
  obtain ⟨a1, a2, a3⟩ := a
  obtain ⟨b1, b2, b3⟩ := b
  obtain ⟨c1, c2, c3⟩ := c
  simp only [keyLeP] at h1 h2 ⊢
  rcases h1 with h1 | ⟨e1, h1⟩
  · rcases h2 with h2 | ⟨e2, h2⟩
    · exact Or.inl (by omega)
    · exact Or.inl (by omega)
  · rcases h2 with h2 | ⟨e2, h2⟩
    · exact Or.inl (by omega)
    · refine Or.inr ⟨by omega, ?_⟩
      rcases h1 with hp1 | ⟨pe1, hn1⟩
      · rcases h2 with hp2 | ⟨pe2, hn2⟩
        · exact Or.inl (pathLt_trans hp1 hp2)
        · subst pe2
          exact Or.inl hp1
      · rcases h2 with hp2 | ⟨pe2, hn2⟩
        · subst pe1
          exact Or.inl hp2
        · subst pe1
          exact Or.inr ⟨pe2, by omega⟩

/-- Item comparison is total. -/
lemma itemLe_total (a b : SortItem) : itemLe a b ∨ itemLe b a := by
  rw [itemLe_iff, itemLe_iff]
  exact keyLeP_total _ _

/-- Item comparison is transitive. -/
lemma itemLe_trans {a b c : SortItem} (h1 : itemLe a b) (h2 : itemLe b c) :
    itemLe a c := by
  rw [itemLe_iff] at h1 h2 ⊢
  exact keyLeP_trans h1 h2

instance : IsTotal SortItem itemLe := ⟨itemLe_total⟩

instance : IsTrans SortItem itemLe := ⟨fun _ _ _ => itemLe_trans⟩

/-- Stability of `orderedInsert` against a fixed-key filter. -/
lemma filter_key_orderedInsert (k : Nat × Option String × Nat) (a : SortItem) :
    ∀ l : List SortItem,
    (List.orderedInsert itemLe a l).filter (fun x => decide (itemKey x = k)) =
      if itemKey a = k
      then a :: l.filter (fun x => decide (itemKey x = k))
      else l.filter (fun x => decide (itemKey x = k))
  | [] => by
      by_cases hk : itemKey a = k <;> simp [List.orderedInsert, hk]
  | b :: l => by
      have ih := filter_key_orderedInsert k a l
      by_cases hab : itemLe a b
      · rw [List.orderedInsert, if_pos hab]
        by_cases hk : itemKey a = k <;> simp [List.filter_cons, hk]
      · rw [List.orderedInsert, if_neg hab]
        by_cases hk : itemKey a = k
        · have hbk : ¬ itemKey b = k := fun h => hab (itemLe_of_key_eq (hk.trans h.symm))
          simp [List.filter_cons, hk, hbk, ih]
        · by_cases hbk : itemKey b = k <;> simp [List.filter_cons, hk, hbk, ih]

/-- Stability of `insertionSort` against a fixed-key filter. -/
lemma filter_key_insertionSort (k : Nat × Option String × Nat) :
    ∀ l : List SortItem,
    (List.insertionSort itemLe l).filter (fun x => decide (itemKey x = k)) =
      l.filter (fun x => decide (itemKey x = k))
  | [] => rfl
  | a :: l => by
      rw [List.insertionSort, filter_key_orderedInsert]
      by_cases hk : itemKey a = k <;>
        simp [List.filter_cons, hk, filter_key_insertionSort k l]

/-- Two sorted item lists with identical fixed-key filters are equal. -/
lemma sorted_eq_of_filter_key_eq :
    ∀ (l1 l2 : List SortItem), List.Pairwise itemLe l1 → List.Pairwise itemLe l2 →
    (∀ k, l1.filter (fun x => decide (itemKey x = k)) =
          l2.filter (fun x => decide (itemKey x = k))) → l1 = l2
  | [], [], _, _, _ => rfl
  | [], b :: l2, _, _, hf => by
      have h := hf (itemKey b)
      simp [List.filter_cons] at h
  | a :: l1, [], _, _, hf => by
      have h := hf (itemKey a)
      simp [List.filter_cons] at h
  | a :: l1, b :: l2, h1, h2, hf => by
      have ha2 : a ∈ b :: l2 := by
        have h := hf (itemKey a)
        have hm : a ∈ (a :: l1).filter (fun x => decide (itemKey x = itemKey a)) :=
          List.mem_filter.mpr ⟨List.mem_cons_self a l1, by simp⟩
        rw [h] at hm
        exact List.mem_of_mem_filter hm
      have hb1 : b ∈ a :: l1 := by
        have h := hf (itemKey b)
        have hm : b ∈ (b :: l2).filter (fun x => decide (itemKey x = itemKey b)) :=
          List.mem_filter.mpr ⟨List.mem_cons_self b l2, by simp⟩
        rw [← h] at hm
        exact List.mem_of_mem_filter hm
      have hab : itemKey a = itemKey b := by
        rcases List.mem_cons.mp ha2 with h | h
        · rw [h]
        · rcases List.mem_cons.mp hb1 with h0 | h0
          · rw [h0]
          · exact keyLeP_antisymm ((itemLe_iff a b).mp (List.rel_of_pairwise_cons h1 h0))
              ((itemLe_iff b a).mp (List.rel_of_pairwise_cons h2 h))
      have hhead : a = b ∧ l1.filter (fun x => decide (itemKey x = itemKey a)) =
          l2.filter (fun x => decide (itemKey x = itemKey a)) := by
        have h := hf (itemKey a)
        have ea : decide (itemKey a = itemKey a) = true := by simp
        have eb : decide (itemKey b = itemKey a) = true := by simp [hab]
        rw [List.filter_cons, List.filter_cons, ea, eb, if_pos rfl, if_pos rfl] at h
        exact ⟨(List.cons.injEq a _ b _).mp h |>.1, (List.cons.injEq a _ b _).mp h |>.2⟩
      have htails : ∀ k, l1.filter (fun x => decide (itemKey x = k)) =
          l2.filter (fun x => decide (itemKey x = k)) := by
        intro k
        have h := hf k
        by_cases hk : itemKey a = k
        · have ea : decide (itemKey a = k) = true := by simp [hk]
          have eb : decide (itemKey b = k) = true := by simp [hab.symm.trans hk]
          rw [List.filter_cons, List.filter_cons, ea, eb, if_pos rfl, if_pos rfl] at h
          exact ((List.cons.injEq a _ b _).mp h).2
        · have ea : decide (itemKey a = k) = false := decide_eq_false hk
          have eb : decide (itemKey b = k) = false :=
            decide_eq_false (fun h0 => hk (hab.trans h0))
          rw [List.filter_cons, List.filter_cons, ea, eb] at h
          simpa using h
      rw [hhead.1, sorted_eq_of_filter_key_eq l1 l2 (List.Pairwise.of_cons h1)
        (List.Pairwise.of_cons h2) htails]

/-- Folding `putAppend` over items appends each path's projections. -/
lemma lookupPath_foldl :
    ∀ (s : List SortItem) (acc : List (Option String × List Message)) (p : Option String),
    lookupPath (s.foldl (fun acc x => putAppend acc x.2.1 x.2.2.2) acc) p =
      lookupPath acc p ++ projFilter p s
  | [], acc, p => by simp [projFilter]
  | x :: s, acc, p => by
      rw [List.foldl_cons, lookupPath_foldl s _ p, lookupPath_putAppend]
      by_cases hp : p = x.2.1
      · have hx : decide (x.2.1 = p) = true := by simp [hp]
        simp [projFilter, List.filter_cons, hx, hp, List.append_assoc]
      · have hx : decide (x.2.1 = p) = false := decide_eq_false (fun h => hp h.symm)
        simp [projFilter, List.filter_cons, hx, hp]

/-- The list regrouped under `p` is the projection of the `p`-items. -/
lemma regroup_lookup (s : List SortItem) (p : Option String) :
    lookupPath (regroup s) p = projFilter p s := by
  have h := lookupPath_foldl s [] p
  simpa [regroup, lookupPath] using h

/-- Key list of `putAppend`: unchanged, or the new key at the end. -/
lemma putAppend_keys :
    ∀ (l : List (Option String × List Message)) (p : Option String) (m : Message),
    (putAppend l p m).map Prod.fst =
      if p ∈ l.map Prod.fst then l.map Prod.fst else l.map Prod.fst ++ [p]
  | [], p, m => by simp [putAppend]
  | e :: l, p, m => by
      simp only [putAppend]
      by_cases he : e.1 = p
      · simp [he]
      · have hne : ¬ p = e.1 := fun h => he h.symm
        rw [if_neg he]
        simp only [List.map_cons, putAppend_keys l p m, List.mem_cons, hne, false_or]
        by_cases hp : p ∈ l.map Prod.fst <;> simp [hp]

/-- `putAppend` preserves distinctness of the path keys. -/
lemma keys_nodup_putAppend (l : List (Option String × List Message))
    (p : Option String) (m : Message) (h : (l.map Prod.fst).Nodup) :
    ((putAppend l p m).map Prod.fst).Nodup := by
  rw [putAppend_keys]
  by_cases hp : p ∈ l.map Prod.fst
  · simpa [hp] using h
  · rw [if_neg hp, List.nodup_append]
    refine ⟨h, List.nodup_singleton p, ?_⟩
    intro a ha hap
    rw [List.mem_singleton] at hap
    exact hp (hap ▸ ha)

/-- Distinct keys, generalized over the accumulator. -/
lemma regroup_keys_nodup_aux :
    ∀ (s : List SortItem) (acc : List (Option String × List Message)),
    ((acc.map Prod.fst).Nodup) →
    (((s.foldl (fun acc x => putAppend acc x.2.1 x.2.2.2) acc).map Prod.fst).Nodup)
  | [], _, h => h
  | x :: s, acc, h => by
      rw [List.foldl_cons]
      exact regroup_keys_nodup_aux s _ (keys_nodup_putAppend acc x.2.1 x.2.2.2 h)

/-- The regrouped dict has distinct path keys. -/
lemma regroup_keys_nodup (s : List SortItem) : ((regroup s).map Prod.fst).Nodup := by
  have h := regroup_keys_nodup_aux s [] (by simp)
  simpa [regroup] using h

/-- With distinct keys, membership determines the lookup. -/
lemma lookupPath_of_mem :
    ∀ (al : List (Option String × List Message)) (p : Option String) (l : List Message),
    (p, l) ∈ al → ((al.map Prod.fst).Nodup) → lookupPath al p = l
  | [], _, _, h, _ => absurd h (List.not_mem_nil _)
  | e :: al, p, l, h, hn => by
      rw [List.map_cons, List.nodup_cons] at hn
      rcases List.mem_cons.mp h with rfl | h2
      · simp [lookupPath]
      · have hep : ¬ e.1 = p := by
          intro he
          exact hn.1 (by rw [he]; exact List.mem_map_of_mem Prod.fst h2)
        rw [lookupPath, if_neg hep]
        exact lookupPath_of_mem al p l h2 hn.2

/-- Lookup of an absent key is empty. -/
lemma lookupPath_of_not_mem :
    ∀ (al : List (Option String × List Message)) (p : Option String),
    p ∉ al.map Prod.fst → lookupPath al p = []
  | [], _, _ => rfl
  | e :: al, p, h => by
      rw [List.map_cons, List.mem_cons] at h
      push_neg at h
      rw [lookupPath, if_neg (fun he => h.1 he.symm)]
      exact lookupPath_of_not_mem al p h.2

/-- Every item built by `itemsOf` carries coherent tags. -/
lemma itemsOf_coh (w : WinInfo) : ∀ x ∈ itemsOf w, coh x := by
  intro x hx
  simp only [itemsOf, List.mem_flatMap, List.mem_map] at hx
  obtain ⟨e, he, m, hm, rfl⟩ := hx
  exact ⟨rfl, rfl⟩

/-- A sorted coherent item list projects to a per-path `msgLe`-sorted list. -/
lemma pairwise_projFilter (s : List SortItem) (p : Option String)
    (hs : List.Pairwise itemLe s) (hcoh : ∀ x ∈ s, coh x) :
    List.Pairwise msgLe (projFilter p s) := by
  rw [projFilter, List.pairwise_map]
  refine List.Pairwise.imp_of_mem ?_ (hs.filter _)
  intro x y hx hy hr
  obtain ⟨hx1, hx2⟩ := List.mem_filter.mp hx
  obtain ⟨hy1, hy2⟩ := List.mem_filter.mp hy
  rw [decide_eq_true_eq] at hx2 hy2
  obtain ⟨cx1, cx2⟩ := hcoh x hx1
  obtain ⟨cy1, cy2⟩ := hcoh y hy1
  rw [itemLe_iff] at hr
  simp only [keyLeP, itemKey] at hr
  simp only [msgLe]
  rcases hr with h | ⟨e1, h⟩
  · left
    omega
  · rcases h with h | ⟨e2, h⟩
    · rw [hx2, hy2] at h
      exact (pathLt_irrefl p h).elim
    · right
      exact ⟨by omega, by omega⟩

/-- C7 per-path sortedness helper. -/
lemma sort_per_path (w : WinInfo) (p : Option String) (l : List Message)
    (h : (p, l) ∈ (sort_messages w).paths) : List.Pairwise msgLe l := by
  simp only [sort_messages] at h
  have h2 := lookupPath_of_mem _ p l h
    (regroup_keys_nodup (List.insertionSort itemLe (itemsOf w)))
  rw [regroup_lookup] at h2
  rw [← h2]
  refine pairwise_projFilter _ p (List.sorted_insertionSort itemLe _) ?_
  intro x hx
  exact itemsOf_coh w x ((List.mem_insertionSort itemLe).mp hx)

/-- A flatMap that is nonempty for a single key. -/
lemma flatMap_if_single (F : List SortItem) (p0 : Option String) :
    ∀ (al : List (Option String × List Message)), ((al.map Prod.fst).Nodup) →
    (al.flatMap (fun e => if e.1 = p0 then F else [])) =
      if p0 ∈ al.map Prod.fst then F else []
  | [], _ => by simp
  | e :: al, hn => by
      rw [List.flatMap_cons, List.map_cons]
      rw [List.map_cons, List.nodup_cons] at hn
      by_cases he : e.1 = p0
      · rw [if_pos he, flatMap_if_single F p0 al hn.2]
        have hnp : p0 ∉ al.map Prod.fst := fun h => hn.1 (by rw [he]; exact h)
        rw [if_neg hnp, List.append_nil,
          if_pos (List.mem_cons.mpr (Or.inl he.symm))]
      · rw [if_neg he, List.nil_append, flatMap_if_single F p0 al hn.2]
        have hiff : (p0 ∈ e.1 :: al.map Prod.fst) ↔ p0 ∈ al.map Prod.fst := by
          rw [List.mem_cons]
          exact or_iff_right (fun h => he h.symm)
        by_cases hp : p0 ∈ al.map Prod.fst
        · rw [if_pos hp, if_pos (hiff.mpr hp)]
        · rw [if_neg hp, if_neg (fun h => hp (hiff.mp h))]

/-- Re-flattening a regrouped coherent item list preserves every
fixed-key filter. -/
lemma items_regroup_filter (s : List SortItem) (hcoh : ∀ x ∈ s, coh x)
    (w2 : WinInfo) (hw2 : w2.paths = regroup s) (k : Nat × Option String × Nat) :
    (itemsOf w2).filter (fun x => decide (itemKey x = k)) =
      s.filter (fun x => decide (itemKey x = k)) := by
  rw [itemsOf, hw2, List.filter_flatMap]
  have hstep : ∀ e ∈ regroup s,
      ((e.2.map (fun m => (levelRank m, e.1, m.lineno, m))).filter
        (fun x => decide (itemKey x = k))) =
      if e.1 = k.2.1 then s.filter (fun x => decide (itemKey x = k)) else [] := by
    intro e he
    have he2 : e.2 = projFilter e.1 s := by
      have h := lookupPath_of_mem (regroup s) e.1 e.2 he (regroup_keys_nodup s)
      rw [regroup_lookup] at h
      exact h.symm
    rw [he2, projFilter, List.map_map]
    have hretag : ((s.filter (fun x => decide (x.2.1 = e.1))).map
        ((fun m => (levelRank m, e.1, m.lineno, m)) ∘ (fun x => x.2.2.2))) =
        s.filter (fun x => decide (x.2.1 = e.1)) := by
      have hpt : ∀ x ∈ s.filter (fun x => decide (x.2.1 = e.1)),
          ((fun m => (levelRank m, e.1, m.lineno, m)) ∘ (fun x => x.2.2.2)) x = id x := by
        intro x hx
        obtain ⟨hx1, hx2⟩ := List.mem_filter.mp hx
        rw [decide_eq_true_eq] at hx2
        obtain ⟨c1, c2⟩ := hcoh x hx1
        simp only [Function.comp, id]
        rw [← c1, ← c2, ← hx2]
      rw [List.map_congr_left hpt, List.map_id]
    rw [hretag, List.filter_filter]
    by_cases hek : e.1 = k.2.1
    · rw [if_pos hek]
      apply List.filter_congr
      intro x hx
      by_cases hk : itemKey x = k
      · have hxp : x.2.1 = e.1 := by
          rw [hek]
          exact congrArg (fun t => t.2.1) hk
        simp [hk, hxp]
      · simp [hk]
    · rw [if_neg hek, List.filter_eq_nil_iff]
      intro x hx hpred
      rw [Bool.and_eq_true, decide_eq_true_eq, decide_eq_true_eq] at hpred
      obtain ⟨hk, hxp⟩ := hpred
      apply hek
      rw [← hxp]
      exact congrArg (fun t => t.2.1) hk
  rw [List.flatMap_congr hstep, flatMap_if_single _ _ _ (regroup_keys_nodup s)]
  by_cases hp : k.2.1 ∈ (regroup s).map Prod.fst
  · rw [if_pos hp]
  · rw [if_neg hp, eq_comm, List.filter_eq_nil_iff]
    intro x hx hk
    rw [decide_eq_true_eq] at hk
    have hxp : x.2.1 = k.2.1 := congrArg (fun t => t.2.1) hk
    have hmem : x.2.2.2 ∈ lookupPath (regroup s) k.2.1 := by
      rw [regroup_lookup, projFilter]
      exact List.mem_map_of_mem _ (List.mem_filter.mpr ⟨hx, by simp [hxp]⟩)
    rw [lookupPath_of_not_mem _ _ hp] at hmem
    exact absurd hmem (List.not_mem_nil _)

/-- C7 idempotence helper. -/
lemma sort_idem (w : WinInfo) : sort_messages (sort_messages w) = sort_messages w := by
  have hs : List.Pairwise itemLe (List.insertionSort itemLe (itemsOf w)) :=
    List.sorted_insertionSort itemLe (itemsOf w)
  have hcoh : ∀ x ∈ List.insertionSort itemLe (itemsOf w), coh x := by
    intro x hx
    exact itemsOf_coh w x ((List.mem_insertionSort itemLe).mp hx)
  have hfix : List.insertionSort itemLe (itemsOf (sort_messages w)) =
      List.insertionSort itemLe (itemsOf w) := by
    apply sorted_eq_of_filter_key_eq
    · exact List.sorted_insertionSort itemLe _
    · exact hs
    · intro k
      rw [filter_key_insertionSort, filter_key_insertionSort,
        items_regroup_filter _ hcoh (sort_messages w) rfl k]
      exact filter_key_insertionSort k (itemsOf w)
  show { sort_messages w with
      paths := regroup (List.insertionSort itemLe (itemsOf (sort_messages w))) } =
    sort_messages w
  rw [hfix]
  rfl

/-- C7 (amended): sort orders each path's stored entry list by
(severity rank, line) and is idempotent; the flattened cross-path
sequence is not totally ordered, because all entries of a path are
grouped under its first sorted occurrence. -/
theorem c7_sort_per_path_idempotent (w : WinInfo) :
    (∀ p l, (p, l) ∈ (sort_messages w).paths → List.Pairwise msgLe l) ∧
    sort_messages (sort_messages w) = sort_messages w :=
  ⟨fun p l h => sort_per_path w p l h, sort_idem w⟩

/-- C7 counterexample: after sorting, the session's flattened entries are
not totally ordered by (severity, path, line): the help entry of file a
precedes the warning entry of file b. -/
theorem c7_counterexample :
    ¬ List.Pairwise itemLe (itemsOf (sort_messages exWinSort)) := by decide

/-- Witness for C7: on the example session, the list regrouped under file
a is (severity, line)-sorted and resorting changes nothing. -/
theorem c7_sort_per_path_idempotent_witness :
    List.Pairwise msgLe [exErrA, exHelpA] ∧
    sort_messages (sort_messages exWinSort) = sort_messages exWinSort := by
  have h := c7_sort_per_path_idempotent exWinSort
  exact ⟨h.1 (some "a") [exErrA, exHelpA] (by decide), h.2⟩

end RustMessages